import Mathlib

/-!
# Verification of the irrigation-garden simulation core

A shallow embedding, over `ℚ`, of the moisture simulation, metrics, decision
policy, episode runner, hose planner and genetic-algorithm trainer of the
`unijui-inteligent-irrigation-garden` repository, together with theorems
settling the specification claims.

JavaScript `number` values that only ever undergo field operations, `min`,
`max`, comparisons and rounding are modelled as `ℚ`.  Transcendental library
functions (`Math.sin`, `Math.PI`) are modelled as opaque fixed parameters,
since only their determinism matters to any claim.
-/

namespace Irrig

/-- Tile types, from `types.ts` (`Garden.Tile.Type`). -/
inductive TileType
  | soil
  | path
  | pillar
  | waterSource
deriving DecidableEq, Repr

/-- A grid position (`Garden.Position` in `types.ts`). -/
structure Pos where
  x : Int
  y : Int
deriving DecidableEq, Repr

/-- A tile (`Garden.Tile` in `types.ts`). -/
structure Tile where
  x : Int
  y : Int
  type : TileType
  hasPlant : Bool
  moisture : ℚ
deriving DecidableEq, Repr

/-- A hose path (`Garden.HosePath` in `types.ts`); the string id is irrelevant
to every claim and is kept as a number. -/
structure HosePath where
  id : Nat
  source : Pos
  target : Pos
  tiles : List Pos
deriving DecidableEq, Repr

/-- The garden (`Garden` in `types.ts`).  The row-major tile matrix
`tiles[y][x]` is modelled as the total function `tileAt y x`; all code only
reads it at in-bounds indices `y < height`, `x < width`. -/
structure Garden where
  width : Nat
  height : Nat
  tileAt : Nat → Nat → Tile
  hoses : List HosePath
  seed : Nat

/-- Weather state (`Weather.State` in `types.ts`). -/
structure Weather where
  temperature : ℚ
  humidity : ℚ
  sunIntensity : ℚ
  rainIntensity : ℚ
deriving DecidableEq, Repr

/-- Simulation configuration (`Simulation.Config` in `types.ts`). -/
structure Config where
  irrigationRate : ℚ
  baseEvaporationRate : ℚ
  diffusionRate : ℚ
  rainToMoisture : ℚ
  maxMoisture : ℚ
  coverageRadius : Int
deriving DecidableEq, Repr

/-- `consts.ts`: ideal moisture thresholds and time constants. -/
def IDEAL_MIN_MOISTURE : ℚ := 1/10

/-- `consts.ts`: upper ideal moisture threshold. -/
def IDEAL_MAX_MOISTURE : ℚ := 1

/-- `consts.ts`: ticks per simulated day. -/
def TICKS_PER_DAY : Nat := 100

/-- `consts.ts`: reference water usage per plant tick. -/
def WATER_USAGE_PER_TICK : ℚ := 1

/-- `consts.ts`: episode length. -/
def EPISODE_LENGTH : Nat := 1000

/-- `consts.ts`: number of forecast ticks. -/
def FORECAST_TICK_WINDOW : Nat := 10

/-- Is the tile at `(y, x)` of type soil?  (`tiles[y][x].type === "soil"`.) -/
def soilAt (g : Garden) (y x : Nat) : Bool :=
  (g.tileAt y x).type = TileType.soil

/-- The hose-mask grid built at the top of `stepGardenMoisture`
(`simulation.ts` lines 24-41): `hoseMask g y x` is true exactly when some
hose of the garden has a tile at in-bounds position `(x, y)` whose garden
tile is not a pillar. -/
def hoseMask (g : Garden) (y x : Nat) : Bool :=
  g.hoses.any fun h => h.tiles.any fun p =>
    p.y = (y : Int) && p.x = (x : Int) &&
    decide (y < g.height) && decide (x < g.width) &&
    ((g.tileAt y x).type ≠ TileType.pillar)

/-- The moisture matrix extracted before the phases run
(`tiles[y][x].moisture ?? 0`, `simulation.ts` lines 47-49). -/
def moisture0 (g : Garden) (y x : Nat) : ℚ :=
  (g.tileAt y x).moisture

/-- Phase 1 of `stepGardenMoisture` (sourcing, `simulation.ts` lines 51-77):
irrigation adds `irrigationRate` on soil tiles of the hose mask when
irrigation is on, and rain adds `rainToMoisture * rainIntensity` on every
soil tile when `rainIntensity > 0`. -/
def sourcedMoisture (g : Garden) (cfg : Config) (w : Weather)
    (irrigationOn : Bool) (y x : Nat) : ℚ :=
  moisture0 g y x
    + (if irrigationOn && hoseMask g y x && soilAt g y x
        then cfg.irrigationRate else 0)
    + (if decide (0 < w.rainIntensity) && soilAt g y x
        then cfg.rainToMoisture * w.rainIntensity else 0)

/-- The climate factor of phase 2 (`simulation.ts` lines 81-85). -/
def climateFactor (w : Weather) : ℚ :=
  1 + (1/2) * w.sunIntensity + (2/100) * (w.temperature - 20)
    - (1/2) * w.humidity

/-- The per-tick evaporation rate (`simulation.ts` line 87). -/
def evaporationRate (cfg : Config) (w : Weather) : ℚ :=
  max 0 (cfg.baseEvaporationRate * climateFactor w)

/-- Phases 1+2 of `stepGardenMoisture`: the moisture matrix after sourcing and
evaporation, i.e. the pre-diffusion snapshot (`simulation.ts` lines 89-96). -/
def preDiffusionMoisture (g : Garden) (cfg : Config) (w : Weather)
    (irrigationOn : Bool) (y x : Nat) : ℚ :=
  sourcedMoisture g cfg w irrigationOn y x
    - (if soilAt g y x then evaporationRate cfg w else 0)

/-- The diffusion delta produced by the ordered soil pair `A = (y, x)`,
`B = (ny, nx)` (`simulation.ts` lines 115-131): `diffusionRate * (mA - mB)`
when both ends are in-bounds soil tiles, `0` otherwise.  (The source's
`if (diff === 0) continue` skip is a no-op and needs no translation.) -/
def pairDelta (g : Garden) (dr : ℚ) (m : Nat → Nat → ℚ)
    (y x ny nx : Nat) : ℚ :=
  if soilAt g y x && decide (nx < g.width) && decide (ny < g.height)
      && soilAt g ny nx
  then dr * (m y x - m ny nx) else 0

/-- The accumulated diffusion delta `diffs[y][x]` (`simulation.ts` lines
98-133): each tile loses the deltas toward its right and down soil
neighbours and gains the deltas from its left and up soil neighbours
(only right/down pairs are enumerated by the source, each unordered pair
once). -/
def diffDelta (g : Garden) (dr : ℚ) (m : Nat → Nat → ℚ) (y x : Nat) : ℚ :=
  -(pairDelta g dr m y x y (x + 1)) - pairDelta g dr m y x (y + 1) x
    + (if x = 0 then 0 else pairDelta g dr m y (x - 1) y x)
    + (if y = 0 then 0 else pairDelta g dr m (y - 1) x y x)

/-- Phase 3 of `stepGardenMoisture` applied to an arbitrary moisture snapshot
`m` (`simulation.ts` lines 135-140): all deltas are computed from the
snapshot and applied simultaneously. -/
def diffuseMoisture (g : Garden) (dr : ℚ) (m : Nat → Nat → ℚ)
    (y x : Nat) : ℚ :=
  m y x + diffDelta g dr m y x

/-- The moisture matrix after phases 1-3 of `stepGardenMoisture`. -/
def postDiffusionMoisture (g : Garden) (cfg : Config) (w : Weather)
    (irrigationOn : Bool) : Nat → Nat → ℚ :=
  diffuseMoisture g cfg.diffusionRate (preDiffusionMoisture g cfg w irrigationOn)

/-- Phase 4 of `stepGardenMoisture` (`simulation.ts` lines 142-157): the tile
written back at `(y, x)` — soil tiles get their post-diffusion moisture
clamped to `[0, maxMoisture]`, all other tiles are returned unchanged. -/
def stepTileAt (g : Garden) (cfg : Config) (w : Weather)
    (irrigationOn : Bool) (y x : Nat) : Tile :=
  let t := g.tileAt y x
  if t.type = TileType.soil then
    { t with
      moisture :=
        max 0 (min cfg.maxMoisture (postDiffusionMoisture g cfg w irrigationOn y x)) }
  else t

/-- `stepGardenMoisture` (`simulation.ts` lines 17-163): one simulation tick
producing a new garden; only the tile matrix changes. -/
def stepGardenMoisture (g : Garden) (cfg : Config) (w : Weather)
    (irrigationOn : Bool) : Garden :=
  { g with tileAt := stepTileAt g cfg w irrigationOn }

/-- Episode results (`Simulation.Results` in `types.ts`). -/
structure Results where
  totalWaterUsed : ℚ
  dryPlantTicks : Nat
  floodedPlantTicks : Nat
  healthyPlantTicks : Nat
  peakSimultaneousFloodedPlants : Nat
  peakSimultaneousDryPlants : Nat
  tickCount : Nat
  finalScore : Int
  totalPlantTicks : Nat
  irrigationToggleCount : Nat
  irrigationOnTicks : Nat
deriving DecidableEq, Repr

/-- Mutable episode state (`Simulation.State` in `types.ts`).  Tick counters
are natural numbers (the code only ever assigns non-negative integers). -/
structure SimState where
  tick : Nat
  isRunning : Bool
  irrigationOn : Bool
  weather : Weather
  config : Config
  episodeLength : Nat
  forecast : List ℚ
  waterUsedThisTick : ℚ
  lastIrrigationTick : Nat
  cumulativeWaterUsed : ℚ
  irrigationToggleCount : Nat
  irrigationOnTicks : Nat
  dryPlantTicks : Nat
  floodedPlantTicks : Nat
  healthyPlantTicks : Nat
  peakSimultaneousFloodedPlants : Nat
  peakSimultaneousDryPlants : Nat
  results : Option Results

/-- Per-tick metrics (`Simulation.Metrics` in `types.ts`). -/
structure Metrics where
  avgMoisture : ℚ
  minMoisture : ℚ
  maxMoisture : ℚ
  percentTooDry : ℚ
  percentTooWet : ℚ
  irrigationOn : Bool
  ticksSinceLastIrrigation : ℚ
  timeOfDay : ℚ
  episodeProgress : ℚ
  waterUsedThisTick : ℚ
  cumulativeWaterUsed : ℚ
deriving DecidableEq, Repr

/-- `garden.tiles.flat()` in row-major order. -/
def flatTiles (g : Garden) : List Tile :=
  (List.range g.height).flatMap fun y => (List.range g.width).map fun x => g.tileAt y x

/-- The planted tiles of the garden, in row-major order
(`garden.tiles.flat().filter((t) => t.hasPlant)`). -/
def plantTilesList (g : Garden) : List Tile :=
  (flatTiles g).filter (·.hasPlant)

/-- `computeGardenMetrics` (`metrics.ts`): one pass over the planted tiles
accumulating sum/min/max/dry/wet, then the derived percentages (`Math.round`
onto a 0-100 scale), ticks-since-irrigation, time-of-day and progress.  The
`Infinity` / `-Infinity` fold seeds of the source are realised by seeding the
fold with the first element and mapping the empty case to `0`, exactly the
source's `min === Infinity ? 0 : min` post-pass. -/
def computeGardenMetrics (s : SimState) (g : Garden) : Metrics :=
  let ms := (plantTilesList g).map (·.moisture)
  let totalPlants := ms.length
  let avg : ℚ := if 0 < totalPlants then ms.sum / (totalPlants : ℚ) else 0
  let minM : ℚ := match ms with | [] => 0 | a :: rest => rest.foldl min a
  let maxM : ℚ := match ms with | [] => 0 | a :: rest => rest.foldl max a
  let dryCount := ms.countP fun m => decide (m < IDEAL_MIN_MOISTURE)
  let wetCount := ms.countP fun m => decide (IDEAL_MAX_MOISTURE < m)
  let percentDry : ℚ :=
    if 0 < totalPlants then ((round ((dryCount : ℚ) / (totalPlants : ℚ) * 100) : ℤ) : ℚ) else 0
  let percentWet : ℚ :=
    if 0 < totalPlants then ((round ((wetCount : ℚ) / (totalPlants : ℚ) * 100) : ℤ) : ℚ) else 0
  { avgMoisture := avg
    minMoisture := minM
    maxMoisture := maxM
    percentTooDry := percentDry
    percentTooWet := percentWet
    irrigationOn := s.irrigationOn
    ticksSinceLastIrrigation :=
      if s.irrigationOn then 0 else ((s.tick - s.lastIrrigationTick : Nat) : ℚ)
    timeOfDay := ((s.tick % TICKS_PER_DAY : Nat) : ℚ) / (TICKS_PER_DAY : ℚ)
    episodeProgress :=
      if 0 < s.episodeLength then min ((s.tick : ℚ) / (s.episodeLength : ℚ)) 1 else 0
    waterUsedThisTick := s.waterUsedThisTick
    cumulativeWaterUsed := s.cumulativeWaterUsed }

/-- The first output of `mulberry32(seed)` from `utils.ts`, on the integral
seeds the simulation feeds it.  JavaScript 32-bit coercions are modelled by
reduction modulo `2^32`; `Math.imul` is multiplication modulo `2^32` (sign
is irrelevant to the produced bit patterns). -/
def mulberry32out (seed : Nat) : ℚ :=
  let M : Nat := 4294967296
  let t0 : Nat := (seed + 1831565813) % M
  let t1 : Nat := ((t0 ^^^ (t0 >>> 15)) * (t0 ||| 1)) % M
  let t2 : Nat := t1 ^^^ ((t1 + ((t1 ^^^ (t1 >>> 7)) * (t1 ||| 61)) % M) % M)
  ((t2 ^^^ (t2 >>> 14) : Nat) : ℚ) / (M : ℚ)

/-- The ambient deterministic host functions: `Math.sin` and `Math.PI`.
They are fixed pure functions of the JavaScript host; every claim that
touches them is insensitive to their values, so they are parameters. -/
structure Externals where
  sinq : ℚ → ℚ
  piq : ℚ

/-- `evolveWeather` (`simulation.ts` lines 165-182): pure function of the
seed, the previous state and the tick index. -/
def evolveWeather (E : Externals) (seed : Nat) (prev : Weather) (tick : Nat) : Weather :=
  let r := mulberry32out (seed + tick)
  let dayPhase : ℚ := ((tick % TICKS_PER_DAY : Nat) : ℚ) / (TICKS_PER_DAY : ℚ)
  let sun : ℚ := max 0 (E.sinq (dayPhase * E.piq * 2))
  { temperature := 20 + 10 * sun
    humidity := 2/5 + 3/10 * (1 - sun)
    sunIntensity := sun
    rainIntensity := if r < 1/100 then 1/2 else max 0 (prev.rainIntensity - 1/20) }

/-- Is the in-bounds position `(x, y)` within Manhattan distance
`radius` of some tile of some hose?  This is exactly the membership test of
the `marked` set built by `computeWaterUsedThisTick`
(`GardenSimulation.ts` lines 90-114). -/
def withinHoseCoverage (g : Garden) (radius : Int) (y x : Nat) : Bool :=
  g.hoses.any fun h => h.tiles.any fun p =>
    ((p.x - (x : Int)).natAbs + (p.y - (y : Int)).natAbs : Int) ≤ radius

/-- `computeWaterUsedThisTick` (`GardenSimulation.ts` lines 90-114): when
irrigation is on, the number of distinct in-bounds soil tiles within the
coverage radius of any hose tile, times the irrigation rate.  The source's
de-duplicating `marked` string set is realised by filtering the grid
positions themselves. -/
def computeWaterUsedThisTick (g : Garden) (cfg : Config) (irrigationOn : Bool) : ℚ :=
  if irrigationOn then
    (((List.range g.height).flatMap fun y =>
        (List.range g.width).filter fun x =>
          soilAt g y x && withinHoseCoverage g cfg.coverageRadius y x).length : ℚ)
      * cfg.irrigationRate
  else 0

/-- Plants currently below the dryness floor (`updatePlantAccumulators`). -/
def dryPlantsNow (g : Garden) : Nat :=
  (plantTilesList g).countP fun t => decide (t.moisture < IDEAL_MIN_MOISTURE)

/-- Plants currently above the flood ceiling (`updatePlantAccumulators`). -/
def floodedPlantsNow (g : Garden) : Nat :=
  (plantTilesList g).countP fun t =>
    !decide (t.moisture < IDEAL_MIN_MOISTURE) && decide (IDEAL_MAX_MOISTURE < t.moisture)

/-- Plants currently inside the healthy band (`updatePlantAccumulators`). -/
def healthyPlantsNow (g : Garden) : Nat :=
  (plantTilesList g).countP fun t =>
    !decide (t.moisture < IDEAL_MIN_MOISTURE) && !decide (IDEAL_MAX_MOISTURE < t.moisture)

/-- `generateForecast`'s inner loop (`GardenSimulation.ts` lines 150-157):
replay `evolveWeather` forward `n` ticks from weather `w` at tick `t`,
collecting the rain intensities. -/
def forecastAux (E : Externals) (seed : Nat) : Nat → Nat → Weather → List ℚ
  | 0, _, _ => []
  | n + 1, t, w =>
    let w2 := evolveWeather E seed w t
    w2.rainIntensity :: forecastAux E seed n (t + 1) w2

/-- `generateForecast` (`GardenSimulation.ts` lines 150-157). -/
def generateForecast (E : Externals) (seed : Nat) (w : Weather) (tick : Nat) : List ℚ :=
  forecastAux E seed FORECAST_TICK_WINDOW tick w

/-- The whole `GardenSimulation` instance: its garden, its state and the
`overrideEpisodeEnd` flag. -/
structure Sim where
  garden : Garden
  state : SimState
  overrideEpisodeEnd : Bool

/-- `GardenSimulation.compileResults` (`GardenSimulation.ts` lines 163-223):
ratios over total plant ticks, water-efficiency score, fixed-weight
combination, clamp to `[0, 100]` and `Math.round` (`round` in Mathlib is
exactly JavaScript's half-up rounding). -/
def compileResults (sim : Sim) : Results :=
  let s := sim.state
  let tickCount := min s.tick s.episodeLength
  let totalPlants := (plantTilesList sim.garden).length
  let totalPlantTicks := totalPlants * tickCount
  let finalScore : Int :=
    if 0 < totalPlantTicks then
      let healthRatio : ℚ := (s.healthyPlantTicks : ℚ) / (totalPlantTicks : ℚ)
      let dryRatio : ℚ := (s.dryPlantTicks : ℚ) / (totalPlantTicks : ℚ)
      let floodRatio : ℚ := (s.floodedPlantTicks : ℚ) / (totalPlantTicks : ℚ)
      let waterPerPlantTick : ℚ := s.cumulativeWaterUsed / (totalPlantTicks : ℚ)
      let waterPenalty : ℚ := min 1 (waterPerPlantTick / WATER_USAGE_PER_TICK)
      let waterScore : ℚ := 1 - waterPenalty
      let rawScore : ℚ :=
        3/5 * healthRatio + 1/5 * (1 - dryRatio) + 1/10 * (1 - floodRatio)
          + 1/10 * waterScore
      max 0 (min 100 (round (rawScore * 100)))
    else 0
  { totalWaterUsed := s.cumulativeWaterUsed
    dryPlantTicks := s.dryPlantTicks
    floodedPlantTicks := s.floodedPlantTicks
    healthyPlantTicks := s.healthyPlantTicks
    peakSimultaneousFloodedPlants := s.peakSimultaneousFloodedPlants
    peakSimultaneousDryPlants := s.peakSimultaneousDryPlants
    tickCount := tickCount
    finalScore := finalScore
    totalPlantTicks := totalPlantTicks
    irrigationToggleCount := s.irrigationToggleCount
    irrigationOnTicks := s.irrigationOnTicks }

/-- The terminal branch of `GardenSimulation.step` (`GardenSimulation.ts`
lines 242-247): compile final results and stop running. -/
def finishSim (sim : Sim) : Sim :=
  { sim with
    state := { sim.state with results := some (compileResults sim), isRunning := false } }

/-- The normal branch of `GardenSimulation.step` (`GardenSimulation.ts` lines
249-291), with the irrigation decision supplied by the controller function
`C`: decide, track toggles, evolve weather, step the moisture grid, account
water, update plant accumulators, regenerate the forecast, advance the tick. -/
def tickSim (E : Externals) (C : Metrics → SimState → Bool) (sim : Sim) : Sim :=
  let s := sim.state
  let prevIrr := s.irrigationOn
  let metrics := computeGardenMetrics s sim.garden
  let irr := C metrics s
  let toggles := if irr ≠ prevIrr then s.irrigationToggleCount + 1 else s.irrigationToggleCount
  let lastIrr := if irr ≠ prevIrr ∧ irr = true then s.tick else s.lastIrrigationTick
  let onTicks := if irr then s.irrigationOnTicks + 1 else s.irrigationOnTicks
  let w := evolveWeather E sim.garden.seed s.weather s.tick
  let g2 := stepGardenMoisture sim.garden s.config w irr
  let water := computeWaterUsedThisTick g2 s.config irr
  { garden := g2
    state := { s with
      irrigationOn := irr
      irrigationToggleCount := toggles
      lastIrrigationTick := lastIrr
      irrigationOnTicks := onTicks
      weather := w
      waterUsedThisTick := water
      cumulativeWaterUsed := s.cumulativeWaterUsed + water
      dryPlantTicks := s.dryPlantTicks + dryPlantsNow g2
      floodedPlantTicks := s.floodedPlantTicks + floodedPlantsNow g2
      healthyPlantTicks := s.healthyPlantTicks + healthyPlantsNow g2
      peakSimultaneousDryPlants := max s.peakSimultaneousDryPlants (dryPlantsNow g2)
      peakSimultaneousFloodedPlants := max s.peakSimultaneousFloodedPlants (floodedPlantsNow g2)
      forecast := generateForecast E sim.garden.seed w s.tick
      tick := s.tick + 1 }
    overrideEpisodeEnd := sim.overrideEpisodeEnd }

/-- `GardenSimulation.step` as a transition relation on simulator instances:
the two constructors are the two branches of `step()`
(`GardenSimulation.ts` lines 241-291).  Stating the transition as a
relation and proving it functional is the formal content of determinism. -/
inductive StepRel (E : Externals) (C : Metrics → SimState → Bool) : Sim → Sim → Prop
  | finish (sim : Sim) :
      sim.state.episodeLength ≤ sim.state.tick →
      sim.overrideEpisodeEnd = false →
      StepRel E C sim (finishSim sim)
  | advance (sim : Sim) :
      (sim.state.tick < sim.state.episodeLength ∨ sim.overrideEpisodeEnd = true) →
      StepRel E C sim (tickSim E C sim)

/-- `n` consecutive `step()` calls as a relation. -/
inductive RunRel (E : Externals) (C : Metrics → SimState → Bool) :
    Nat → Sim → Sim → Prop
  | zero (sim : Sim) : RunRel E C 0 sim sim
  | succ {n : Nat} {s t u : Sim} :
      StepRel E C s t → RunRel E C n t u → RunRel E C (n + 1) s u

/-- `clamp01` from `FuzzyClimateEvaluator.ts`: `Math.max(0, Math.min(1, x))`. -/
def clamp01 (x : ℚ) : ℚ := max 0 (min 1 x)

/-- `clamp` from `HumidityPredictorNN.ts`: `Math.max(min, Math.min(max, x))`. -/
def clampQ (x lo hi : ℚ) : ℚ := max lo (min hi x)

/-- The triangular membership function `tri` of `FuzzyClimateEvaluator.ts`. -/
def tri (x a b c : ℚ) : ℚ :=
  if x ≤ a ∨ c ≤ x then 0
  else if x = b then 1
  else if x < b then (x - a) / (b - a)
  else (c - x) / (c - b)

/-- Fuzzy risk scores (`FuzzyRisks` in `FuzzyClimateEvaluator.ts`). -/
structure FuzzyRisks where
  drynessRisk : ℚ
  floodRisk : ℚ
deriving DecidableEq, Repr

/-- The dryness fraction the fuzzy evaluator observes: the `/100` conversion
from the metrics' 0-100 percentage scale (`FuzzyClimateEvaluator.ts` line
300: `clamp01(metrics.percentTooDry / 100)`). -/
def fuzzyDryFraction (m : Metrics) : ℚ := clamp01 (m.percentTooDry / 100)

/-- The wetness fraction the fuzzy evaluator observes
(`FuzzyClimateEvaluator.ts` line 301). -/
def fuzzyWetFraction (m : Metrics) : ℚ := clamp01 (m.percentTooWet / 100)

/-- `FuzzyClimateEvaluator.evaluate` (`FuzzyClimateEvaluator.ts` lines
263-336): normalise inputs, compute the triangular memberships, combine the
three dryness rules and the three flood rules by max, and clamp. -/
def fuzzyEvaluate (m : Metrics) (w : Weather) (forecast : List ℚ) : FuzzyRisks :=
  let tempNorm := clamp01 (w.temperature / 40)
  let humNorm := clamp01 w.humidity
  let sunNorm := clamp01 w.sunIntensity
  let rainNow := clamp01 w.rainIntensity
  let forecastRainSoon := clamp01 ((forecast.map clamp01).foldl max 0)
  let tempHigh := tri tempNorm (1/2) (4/5) 1
  let tempLow := tri tempNorm 0 (1/5) (2/5)
  let tempMed := tri tempNorm (3/10) (1/2) (7/10)
  let humLow := tri (1 - humNorm) (3/10) (7/10) 1
  let humHigh := tri humNorm (1/2) (4/5) 1
  let sunHigh := tri sunNorm (1/2) (4/5) 1
  let sunLow := tri sunNorm 0 (1/5) (2/5)
  let sunMed := tri sunNorm (3/10) (1/2) (7/10)
  let rainNowHigh := tri rainNow (3/10) (7/10) 1
  let rainSoonHigh := tri forecastRainSoon (3/10) (7/10) 1
  let percentTooDry := fuzzyDryFraction m
  let percentTooWet := fuzzyWetFraction m
  let ruleDry1 := min tempHigh (min sunHigh humLow)
  let noRainSoon := clamp01 (1 - max rainNowHigh rainSoonHigh)
  let ruleDry2 := min percentTooDry noRainSoon
  let ruleDry3 := min tempMed sunMed
  let drynessRisk := max ruleDry1 (max ruleDry2 ruleDry3)
  let ruleFlood1 := max percentTooWet rainNowHigh
  let alreadyWet := tri percentTooWet (1/10) (3/10) (4/5)
  let ruleFlood2 := min alreadyWet rainSoonHigh
  let ruleFlood3 := min tempLow (min sunLow humHigh)
  let floodRisk := max ruleFlood1 (max ruleFlood2 ruleFlood3)
  { drynessRisk := clamp01 drynessRisk, floodRisk := clamp01 floodRisk }

/-- The current dryness fraction the outcome predictor observes: the `/100`
conversion at `HumidityPredictorNN.ts` line 156
(`metrics.percentTooDry / 100`). -/
def nnCurrentDry (m : Metrics) : ℚ := m.percentTooDry / 100

/-- The current wetness fraction the outcome predictor observes
(`HumidityPredictorNN.ts` line 180). -/
def nnCurrentWet (m : Metrics) : ℚ := m.percentTooWet / 100

/-- `HumidityPredictorNN.forward` = `predictFutureDryness`
(`HumidityPredictorNN.ts` lines 149-202): the deterministic physics-based
dryness prediction.  The irrigation flag `0 | 1` is a `Bool` (`true` = 1).
The stored network weights are never read by `forward` and are omitted. -/
def nnForward (m : Metrics) (w : Weather) (flag : Bool) : ℚ :=
  let currentDry := nnCurrentDry m
  let tempNorm := clampQ (w.temperature / 40) 0 1
  let evaporationFactor := tempNorm * w.sunIntensity * (1 - w.humidity)
  let rainFactor := w.rainIntensity
  let futureDryA := if flag then currentDry * (2/5)
                    else currentDry + evaporationFactor * (3/20)
  let futureDryB := futureDryA - rainFactor * (1/4)
  let futureDryC := futureDryB - nnCurrentWet m * (1/10)
  clampQ futureDryC 0 1

/-- Controller parameters (`ControllerParams` in
`SmartIrrigationController/types.ts`); all eight genes are JavaScript
numbers. -/
structure ControllerParams where
  drynessWeight : ℚ
  floodWeight : ℚ
  waterWeight : ℚ
  predictionHorizonTicks : ℚ
  fuzzyDrynessScale : ℚ
  fuzzyFloodScale : ℚ
  minTicksBetweenToggles : ℚ
  maxDutyCycle : ℚ
deriving DecidableEq, Repr

/-- `SmartIrrigationController.decide` (`SmartIrrigationController.ts` lines
109-208): hysteresis bookkeeping, fuzzy risks, the two outcome predictions,
cost comparison, safety overrides and the hysteresis short-circuit.  The
fuzzy evaluator and predictor collaborators are stateless, so the controller
is a pure function of its parameters, the metrics and the state. -/
def decideSmart (p : ControllerParams) (m : Metrics) (s : SimState) : Bool :=
  let ticksSinceLast := m.ticksSinceLastIrrigation
  let dutyCycle : ℚ :=
    if 0 < s.irrigationOnTicks then (s.irrigationOnTicks : ℚ) / max 1 (s.tick : ℚ) else 0
  let hardWaterCapReached := decide (p.maxDutyCycle < dutyCycle)
  let risks := fuzzyEvaluate m s.weather s.forecast
  let futureDryOff := nnForward m s.weather false
  let futureDryOn := nnForward m s.weather true
  let costOff := p.drynessWeight * futureDryOff
    + p.floodWeight * (risks.floodRisk * p.fuzzyFloodScale) + 0
  let costOn := p.drynessWeight * futureDryOn
    + p.floodWeight * (risks.floodRisk * p.fuzzyFloodScale) + p.waterWeight
  let wantA := decide (costOn < costOff)
  let wantB := if 7/10 < risks.floodRisk then false else wantA
  let wantC :=
    if hardWaterCapReached && decide (risks.drynessRisk < 9/10)
        && decide (futureDryOff < 9/10)
    then false else wantB
  if ticksSinceLast < p.minTicksBetweenToggles then
    if s.irrigationOn then
      if 3/5 < risks.floodRisk then false else true
    else
      if 9/10 < risks.drynessRisk ∨ 9/10 < futureDryOff then true else false
  else wantC

/-- A chromosome (`Chromosome` in `HumidityPredictorNN.ts`): parameters plus
fitness, with the `-Infinity` "unevaluated" sentinel modelled as `⊥` in
`WithBot ℚ`. -/
structure Chromosome where
  params : ControllerParams
  fitness : WithBot ℚ
deriving DecidableEq

/-- GA trainer configuration (`GATrainerConfig`); the optional seed is
subsumed by the explicit random stream the trainer is given. -/
structure GAConfig where
  populationSize : Nat
  generations : Nat
  elitismRate : ℚ
  mutationStdDev : ℚ
  mutationRate : ℚ

/-- Training results (`TrainingResults` in `HumidityPredictorNN.ts`). -/
structure TrainingResults where
  bestChromosome : Chromosome
  fitnessHistory : List (WithBot ℚ)
  finalPopulation : List Chromosome

/-- The all-zero chromosome, standing for JavaScript `undefined` on an
out-of-bounds population read (which no claim ever exercises). -/
def defaultChromosome : Chromosome :=
  { params := ⟨0, 0, 0, 0, 0, 0, 0, 0⟩, fitness := ⊥ }

/-- `GeneticAlgorithmTrainer.randomParams`: eight fresh draws from the
random stream `rng`, one per gene, starting at stream index `i`
(`HumidityPredictorNN.ts` lines 352-363). -/
def randomParams (rng : Nat → ℚ) (i : Nat) : ControllerParams :=
  { drynessWeight := rng i * 3
    floodWeight := rng (i + 1) * 2
    waterWeight := rng (i + 2) * 1
    predictionHorizonTicks := ((⌊rng (i + 3) * 30 + 5⌋ : ℤ) : ℚ)
    fuzzyDrynessScale := rng (i + 4)
    fuzzyFloodScale := rng (i + 5)
    minTicksBetweenToggles := ((⌊rng (i + 6) * 10 + 1⌋ : ℤ) : ℚ)
    maxDutyCycle := rng (i + 7) * (2/5) + 3/10 }

/-- `GeneticAlgorithmTrainer.clampParams` (`HumidityPredictorNN.ts` lines
368-379); every field is defined in this model, so the `??` defaults are
dead. -/
def clampParams (p : ControllerParams) : ControllerParams :=
  { drynessWeight := max 0 p.drynessWeight
    floodWeight := max 0 p.floodWeight
    waterWeight := max 0 p.waterWeight
    predictionHorizonTicks := max 1 (min 100 ((round p.predictionHorizonTicks : ℤ) : ℚ))
    fuzzyDrynessScale := max 0 (min 1 p.fuzzyDrynessScale)
    fuzzyFloodScale := max 0 (min 1 p.fuzzyFloodScale)
    minTicksBetweenToggles := max 0 ((round p.minTicksBetweenToggles : ℤ) : ℚ)
    maxDutyCycle := max (1/10) (min 1 p.maxDutyCycle) }

/-- `GeneticAlgorithmTrainer.gaussianRandom` (`HumidityPredictorNN.ts` lines
455-461): consumes draws `i` and `i+1`; the transcendental Box-Muller
combination `sqrt(-2 log u1) * cos(2π u2)` is the opaque host function
`gauss` applied after the `Math.max(1e-6, u1)` guard. -/
def gaussianRandom (gauss : ℚ → ℚ → ℚ) (rng : Nat → ℚ) (i : Nat) : ℚ :=
  gauss (max (1/1000000) (rng i)) (rng (i + 1))

/-- One conditional mutation step of `mutate`: with probability
`mutationRate` (draw at index `i`), perturb `v` by `f` of a Gaussian sample
(draws `i+1`, `i+2`).  Returns the new value and the next stream index. -/
def mutStep (gauss : ℚ → ℚ → ℚ) (rng : Nat → ℚ) (rate : ℚ) (i : Nat)
    (v : ℚ) (f : ℚ → ℚ) : ℚ × Nat :=
  if rng i < rate then (v + f (gaussianRandom gauss rng (i + 1)), i + 3)
  else (v, i + 1)

/-- `GeneticAlgorithmTrainer.mutate` (`HumidityPredictorNN.ts` lines
420-450): eight sequential conditional Gaussian perturbations followed by
`clampParams`. -/
def mutate (cfg : GAConfig) (gauss : ℚ → ℚ → ℚ) (rng : Nat → ℚ) (i : Nat)
    (p : ControllerParams) : ControllerParams × Nat :=
  let s := cfg.mutationStdDev
  let r1 := mutStep gauss rng cfg.mutationRate i p.drynessWeight (fun z => z * s)
  let r2 := mutStep gauss rng cfg.mutationRate r1.2 p.floodWeight (fun z => z * s)
  let r3 := mutStep gauss rng cfg.mutationRate r2.2 p.waterWeight (fun z => z * s)
  let r4 := mutStep gauss rng cfg.mutationRate r3.2 p.predictionHorizonTicks
    (fun z => ((round (z * 2) : ℤ) : ℚ))
  let r5 := mutStep gauss rng cfg.mutationRate r4.2 p.fuzzyDrynessScale
    (fun z => z * s * (1/2))
  let r6 := mutStep gauss rng cfg.mutationRate r5.2 p.fuzzyFloodScale
    (fun z => z * s * (1/2))
  let r7 := mutStep gauss rng cfg.mutationRate r6.2 p.minTicksBetweenToggles
    (fun z => ((round (z * 1) : ℤ) : ℚ))
  let r8 := mutStep gauss rng cfg.mutationRate r7.2 p.maxDutyCycle
    (fun z => z * s * (3/10))
  (clampParams
    { drynessWeight := r1.1, floodWeight := r2.1, waterWeight := r3.1
      predictionHorizonTicks := r4.1, fuzzyDrynessScale := r5.1
      fuzzyFloodScale := r6.1, minTicksBetweenToggles := r7.1
      maxDutyCycle := r8.1 }, r8.2)

/-- `GeneticAlgorithmTrainer.crossover` (`HumidityPredictorNN.ts` lines
466-483): one shared interpolation weight, integer genes rounded. -/
def crossover (rng : Nat → ℚ) (i : Nat) (p1 p2 : ControllerParams) :
    ControllerParams × Nat :=
  let alpha := rng i
  ({ drynessWeight := p1.drynessWeight * alpha + p2.drynessWeight * (1 - alpha)
     floodWeight := p1.floodWeight * alpha + p2.floodWeight * (1 - alpha)
     waterWeight := p1.waterWeight * alpha + p2.waterWeight * (1 - alpha)
     predictionHorizonTicks :=
       ((round (p1.predictionHorizonTicks * alpha
          + p2.predictionHorizonTicks * (1 - alpha)) : ℤ) : ℚ)
     fuzzyDrynessScale :=
       p1.fuzzyDrynessScale * alpha + p2.fuzzyDrynessScale * (1 - alpha)
     fuzzyFloodScale :=
       p1.fuzzyFloodScale * alpha + p2.fuzzyFloodScale * (1 - alpha)
     minTicksBetweenToggles :=
       ((round (p1.minTicksBetweenToggles * alpha
          + p2.minTicksBetweenToggles * (1 - alpha)) : ℤ) : ℚ)
     maxDutyCycle := p1.maxDutyCycle * alpha + p2.maxDutyCycle * (1 - alpha) },
   i + 1)

/-- The offspring loop of `train` (`HumidityPredictorNN.ts` lines 631-642):
produce `k` children, each from two uniformly drawn elite parents by
crossover then mutation. -/
def offspringLoop (cfg : GAConfig) (gauss : ℚ → ℚ → ℚ) (rng : Nat → ℚ)
    (elite : List Chromosome) : Nat → Nat → List Chromosome × Nat
  | 0, i => ([], i)
  | k + 1, i =>
    let i1 := (⌊rng i * (elite.length : ℚ)⌋ : ℤ)
    let parent1 := elite.getD i1.toNat defaultChromosome
    let i2 := (⌊rng (i + 1) * (elite.length : ℚ)⌋ : ℤ)
    let parent2 := elite.getD i2.toNat defaultChromosome
    let c1 := crossover rng (i + 2) parent1.params parent2.params
    let c2 := mutate cfg gauss rng c1.2 c1.1
    let rest := offspringLoop cfg gauss rng elite k c2.2
    ({ params := c2.1, fitness := ⊥ } :: rest.1, rest.2)

/-- The in-flight data of one generation of `train`. -/
structure GAGenState where
  population : List Chromosome
  best : Chromosome
  hist : List (WithBot ℚ)
  idx : Nat

/-- The fitness-evaluation pass of one generation (`HumidityPredictorNN.ts`
lines 607-612): individuals whose fitness is the `-Infinity` sentinel get
evaluated, the rest keep their fitness. -/
def gaEvaluated (evalFit : ControllerParams → ℚ) (st : GAGenState) :
    List Chromosome :=
  st.population.map fun c =>
    if c.fitness = ⊥ then { c with fitness := ((evalFit c.params : ℚ) : WithBot ℚ) } else c

/-- The fitness-descending sort of one generation (`population.sort((a, b) =>
b.fitness - a.fitness)`). -/
def gaSorted (evalFit : ControllerParams → ℚ)
    (st : GAGenState) : List Chromosome :=
  (gaEvaluated evalFit st).mergeSort fun a b => decide (b.fitness ≤ a.fitness)

/-- `Math.ceil(populationSize * elitismRate)`. -/
def gaNumElite (cfg : GAConfig) : Nat :=
  (⌈(cfg.populationSize : ℚ) * cfg.elitismRate⌉ : ℤ).toNat

/-- The elite slice carried verbatim into the next generation
(`population.slice(0, numElite)`). -/
def gaElite (cfg : GAConfig) (evalFit : ControllerParams → ℚ)
    (st : GAGenState) : List Chromosome :=
  (gaSorted evalFit st).take (gaNumElite cfg)

/-- One generation of `GeneticAlgorithmTrainer.train`
(`HumidityPredictorNN.ts` lines 605-646): evaluate unevaluated individuals,
sort by fitness descending, track the best chromosome (replaced only on a
strictly greater fitness), push the tracked best onto the history, keep the
top `ceil(populationSize * elitismRate)` elites verbatim and refill with
offspring. -/
def gaGeneration (cfg : GAConfig) (gauss : ℚ → ℚ → ℚ)
    (evalFit : ControllerParams → ℚ) (rng : Nat → ℚ) (st : GAGenState) :
    GAGenState :=
  let elite := gaElite cfg evalFit st
  let top := (gaSorted evalFit st).headD st.best
  let best2 := if st.best.fitness < top.fitness then top else st.best
  let off := offspringLoop cfg gauss rng elite (cfg.populationSize - gaNumElite cfg) st.idx
  { population := elite ++ off.1
    best := best2
    hist := st.hist ++ [best2.fitness]
    idx := off.2 }

/-- The generation loop of `train`. -/
def gaLoop (cfg : GAConfig) (gauss : ℚ → ℚ → ℚ)
    (evalFit : ControllerParams → ℚ) (rng : Nat → ℚ) :
    Nat → GAGenState → GAGenState
  | 0, st => st
  | g + 1, st => gaLoop cfg gauss evalFit rng g (gaGeneration cfg gauss evalFit rng st)

/-- The initial population of `train` (`HumidityPredictorNN.ts` lines
592-596): `populationSize` random individuals, each consuming eight draws,
all unevaluated. -/
def initPopulation (cfg : GAConfig) (rng : Nat → ℚ) : List Chromosome :=
  (List.range cfg.populationSize).map fun k =>
    { params := randomParams rng (8 * k), fitness := ⊥ }

/-- `GeneticAlgorithmTrainer.train` (`HumidityPredictorNN.ts` lines 587-656),
as a function of the trainer's random stream `rng`, the opaque Box-Muller
host combination `gauss`, and the deterministic fitness evaluation
`evalFit` (one or more full episode runs averaged — itself a pure function
of the chromosome by the determinism of the episode runner). -/
def gaTrain (cfg : GAConfig) (gauss : ℚ → ℚ → ℚ)
    (evalFit : ControllerParams → ℚ) (rng : Nat → ℚ) : TrainingResults :=
  let pop := initPopulation cfg rng
  let st := gaLoop cfg gauss evalFit rng cfg.generations
    { population := pop
      best := pop.headD defaultChromosome
      hist := []
      idx := 8 * cfg.populationSize }
  { bestChromosome := st.best, fitnessHistory := st.hist, finalPopulation := st.population }

/-! ### Pathfinding (`aStar.ts`) and the hose planner (`hosePlanner.ts`)

JavaScript `Map`s keyed by `"x,y"` strings are modelled as association
lists keyed by the position itself (the key function is injective); `set`
prepends, `get` takes the first hit, which realises overwrite semantics.
The JavaScript value `Infinity` (reachable through `?? Infinity` defaults
and the pillar movement cost) is modelled as `none` in `Option ℚ`. -/

/-- `Map.get`: first binding of the key, if any. -/
def mapGet {α : Type} (m : List (Pos × α)) (k : Pos) : Option α :=
  (m.find? fun e => e.1 = k).map (·.2)

/-- `Map.set`: prepend (the first hit wins on lookup). -/
def mapSet {α : Type} (m : List (Pos × α)) (k : Pos) (v : α) : List (Pos × α) :=
  (k, v) :: m

/-- Strict order on `ℚ ∪ {Infinity}` (`none` = `Infinity`), matching the
JavaScript `<` on numbers that may be `Infinity`. -/
def optLT (a b : Option ℚ) : Bool :=
  match a, b with
  | none, _ => false
  | some _, none => true
  | some x, some y => decide (x < y)

/-- Addition on `ℚ ∪ {Infinity}`. -/
def optAdd (a b : Option ℚ) : Option ℚ :=
  match a, b with
  | some x, some y => some (x + y)
  | _, _ => none

/-- A neighbour entry (`Neighbor` in `aStar.ts`). -/
structure NeighborEntry where
  pos : Pos
  cost : ℚ
deriving DecidableEq, Repr

/-- The mutable search state of `aStar`. -/
structure AState where
  openSet : List Pos
  cameFrom : List (Pos × Pos)
  gScore : List (Pos × Option ℚ)
  fScore : List (Pos × Option ℚ)

/-- `getLowestF` (`aStar.ts` lines 37-50): the index in the open set of the
first strictly-lowest `fScore` (missing scores count as `Infinity`). -/
def getLowestFIdx (fScore : List (Pos × Option ℚ)) (openSet : List Pos) : Nat :=
  let r := openSet.foldl
    (fun (acc : Nat × Option ℚ × Nat) p =>
      let f := (mapGet fScore p).getD none
      if optLT f acc.2.1 then (acc.2.2, f, acc.2.2 + 1) else (acc.1, acc.2.1, acc.2.2 + 1))
    (0, none, 0)
  r.1

/-- The parent-chasing loop of `reconstructPath` (`aStar.ts` lines 52-61),
producing `[current, parent, grandparent, …]` before the final `reverse`.
The fuel bounds the chase; callers pass one more than the number of
`cameFrom` entries, which any acyclic chain is shorter than. -/
def chaseParents (cameFrom : List (Pos × Pos)) : Nat → Pos → List Pos
  | 0, cur => [cur]
  | n + 1, cur =>
    match mapGet cameFrom cur with
    | none => [cur]
    | some prev => cur :: chaseParents cameFrom n prev

/-- `reconstructPath` (`aStar.ts` lines 52-61). -/
def reconstructPath (cameFrom : List (Pos × Pos)) (current : Pos) : List Pos :=
  (chaseParents cameFrom (cameFrom.length + 1) current).reverse

/-- The body of the neighbour loop of `aStar` (`aStar.ts` lines 77-92):
relax one neighbour of `current`. -/
def relaxOne (h : Pos → Pos → ℚ) (goal current : Pos) (st : AState)
    (nb : NeighborEntry) : AState :=
  let currentG := (mapGet st.gScore current).getD none
  let tentativeG := optAdd currentG (some nb.cost)
  let doUpdate :=
    match mapGet st.gScore nb.pos with
    | none => true
    | some existingG => optLT tentativeG existingG
  if doUpdate then
    { openSet :=
        if st.openSet.any fun p => p = nb.pos then st.openSet
        else st.openSet ++ [nb.pos]
      cameFrom := mapSet st.cameFrom nb.pos current
      gScore := mapSet st.gScore nb.pos tentativeG
      fScore := mapSet st.fScore nb.pos (optAdd tentativeG (some (h nb.pos goal))) }
  else st

/-- The main loop of `aStar` (`aStar.ts` lines 63-93), with explicit fuel.
`none` means the fuel ran out before the loop exited; `some none` is the
source's `null` ("no path"); `some (some path)` is a found path. -/
def aStarLoop (getNb : Pos → List NeighborEntry) (h : Pos → Pos → ℚ)
    (goal : Pos) : Nat → AState → Option (Option (List Pos))
  | 0, _ => none
  | fuel + 1, st =>
    match st.openSet with
    | [] => some none
    | _ :: _ =>
      let idx := getLowestFIdx st.fScore st.openSet
      let current := st.openSet.getD idx ⟨0, 0⟩
      if current = goal then some (some (reconstructPath st.cameFrom current))
      else
        let st2 : AState := { st with openSet := st.openSet.eraseIdx idx }
        let st3 := (getNb current).foldl (relaxOne h goal current) st2
        aStarLoop getNb h goal fuel st3

/-- `aStar(start, goal, getNeighbors, heuristic)` (`aStar.ts` lines 20-96)
with explicit fuel for the while-loop. -/
def aStarF (fuel : Nat) (start goal : Pos) (getNb : Pos → List NeighborEntry)
    (h : Pos → Pos → ℚ) : Option (Option (List Pos)) :=
  aStarLoop getNb h goal fuel
    { openSet := [start]
      cameFrom := []
      gScore := [(start, some 0)]
      fScore := [(start, some (h start goal))] }

/-- `manhattanHeuristic` (`aStar.ts` lines 98-99). -/
def manhattanHeuristic (a b : Pos) : ℚ :=
  (((a.x - b.x).natAbs + (a.y - b.y).natAbs : Nat) : ℚ)

/-- `GardenGrid.getTile` (`grid.ts` lines 19-22). -/
def getTile (g : Garden) (x y : Int) : Option Tile :=
  if 0 ≤ x ∧ x < (g.width : Int) ∧ 0 ≤ y ∧ y < (g.height : Int) then
    some (g.tileAt y.toNat x.toNat)
  else none

/-- `GardenGrid.neighbors4` (`grid.ts` lines 24-41), in the source's
right/left/down/up order. -/
def neighbors4 (g : Garden) (pos : Pos) : List Tile :=
  ([(1, 0), (-1, 0), (0, 1), (0, -1)] : List (Int × Int)).filterMap fun d =>
    getTile g (pos.x + d.1) (pos.y + d.2)

/-- `GardenGrid.isWalkableForHose` (`grid.ts` lines 43-46). -/
def isWalkableForHose (t : Tile) : Bool :=
  t.type ≠ TileType.pillar

/-- `GardenGrid.getMovementCost` (`grid.ts` lines 48-59); `Infinity` for
pillars is `none`. -/
def getMovementCost (t : Tile) : Option ℚ :=
  match t.type with
  | TileType.path => some 1
  | TileType.waterSource => some 1
  | TileType.soil => some (13/10)
  | TileType.pillar => none

/-- The neighbour generator the hose planner passes to `aStar`
(`hosePlanner.ts` lines 127-134): walkable 4-neighbours with their movement
cost.  Walkable tiles are never pillars, so their movement cost is finite. -/
def hoseNeighbors (g : Garden) (pos : Pos) : List NeighborEntry :=
  ((neighbors4 g pos).filter isWalkableForHose).map fun t =>
    { pos := ⟨t.x, t.y⟩, cost := (getMovementCost t).getD 0 }

/-- `GardenGrid.findTilesByType` / `findWaterSources` (`grid.ts`). -/
def findWaterSources (g : Garden) : List Tile :=
  (flatTiles g).filter fun t => t.type = TileType.waterSource

/-- `GardenGrid.findPlantTiles` (`grid.ts`). -/
def findPlantTilesG (g : Garden) : List Tile :=
  (flatTiles g).filter (·.hasPlant)

/-- The planner's mutable state: the network tile list (insertion order),
the covered-plant key set (insertion order), the accumulated hoses and the
id counter. -/
structure PState where
  networkList : List Pos
  covered : List Pos
  hoses : List HosePath
  idCounter : Nat
deriving DecidableEq, Repr

/-- `isPlantCovered` (`hosePlanner.ts` lines 68-74). -/
def isPlantCovered (radius : Int) (network : List Pos) (plant : Tile) : Bool :=
  network.any fun pos =>
    (((pos.x - plant.x).natAbs + (pos.y - plant.y).natAbs : Nat) : Int) ≤ radius

/-- `recomputeCoveredPlants` (`hosePlanner.ts` lines 76-84). -/
def recomputeCovered (radius : Int) (plants : List Tile) (network : List Pos)
    (covered : List Pos) : List Pos :=
  plants.foldl
    (fun cov plant =>
      if cov.contains (⟨plant.x, plant.y⟩ : Pos) then cov
      else if isPlantCovered radius network plant then cov ++ [⟨plant.x, plant.y⟩]
      else cov)
    covered

/-- `findNearestNetworkPos` (`hosePlanner.ts` lines 93-105): first
strictly-nearest network tile by Manhattan distance. -/
def findNearestNetworkPos (network : List Pos) (plant : Tile) : Option Pos :=
  match network with
  | [] => none
  | _ :: _ =>
    let r := network.foldl
      (fun (acc : Option Pos × Option ℚ) pos =>
        let d : ℚ := (((pos.x - plant.x).natAbs + (pos.y - plant.y).natAbs : Nat) : ℚ)
        if optLT (some d) acc.2 then (some pos, some d) else acc)
      (none, none)
    r.1

/-- The per-plant candidate path of one planner-loop iteration
(`hosePlanner.ts` lines 117-148): A* from the plant to its nearest network
tile, discard too-short paths, drop the plant tile itself.  `aFuel` is the
fuel given to the embedded `aStar`; exhausted fuel is reported like "no
path" and the planner theorems quantify over all sufficiently large fuels. -/
def planCandidate (g : Garden) (aFuel : Nat) (network : List Pos)
    (plant : Tile) : Option (List Pos) :=
  match findNearestNetworkPos network plant with
  | none => none
  | some target =>
    match aStarF aFuel ⟨plant.x, plant.y⟩ target (hoseNeighbors g) manhattanHeuristic with
    | none => none
    | some none => none
    | some (some path) =>
      if path.length < 2 then none
      else
        let effectivePath := path.drop 1
        if effectivePath.isEmpty then none else some effectivePath

/-- The cost reduction over a candidate path (`hosePlanner.ts` lines
150-154): out-of-bounds tiles cost `9999`, in-bounds tiles their movement
cost (`Infinity` on a pillar). -/
def candidateCost (g : Garden) (path : List Pos) : Option ℚ :=
  path.foldl
    (fun sum p =>
      match getTile g p.x p.y with
      | none => optAdd sum (some 9999)
      | some t => optAdd sum (getMovementCost t))
    (some 0)

/-- The best-plant selection of one planner-loop iteration (`hosePlanner.ts`
lines 109-161): scan the uncovered plants in order, keeping the strictly
cheapest candidate path. -/
def findBestPlant (g : Garden) (aFuel : Nat) (plants : List Tile)
    (st : PState) : Option (Tile × List Pos) :=
  let r := plants.foldl
    (fun (acc : Option (Tile × List Pos) × Option ℚ) plant =>
      if st.covered.contains (⟨plant.x, plant.y⟩ : Pos) then acc
      else
        match planCandidate g aFuel st.networkList plant with
        | none => acc
        | some path =>
          let cost := candidateCost g path
          if optLT cost acc.2 then (some (plant, path), cost) else acc)
    (none, none)
  r.1

/-- Merge a freshly laid path into the network (`hosePlanner.ts` lines
179-185): append the positions not already present, in path order. -/
def mergeIntoNetwork (network : List Pos) (path : List Pos) : List Pos :=
  path.foldl (fun net p => if net.contains p then net else net ++ [p]) network

/-- One iteration of the main planner loop (`hosePlanner.ts` lines 108-189):
`none` when the loop exits (all plants covered, or no connectable plant),
`some st2` when the loop body ran producing state `st2`. -/
def plannerStep (g : Garden) (radius : Int) (aFuel : Nat) (plants : List Tile)
    (st : PState) : Option PState :=
  if plants.length ≤ st.covered.length then none
  else
    match findBestPlant g aFuel plants st with
    | none => none
    | some (_, bestPath) =>
      let hose : HosePath :=
        { id := st.idCounter
          source := bestPath.headD ⟨0, 0⟩
          target := (bestPath.getLast?).getD ⟨0, 0⟩
          tiles := bestPath }
      let network2 := mergeIntoNetwork st.networkList bestPath
      some
        { networkList := network2
          covered := recomputeCovered radius plants network2 st.covered
          hoses := st.hoses ++ [hose]
          idCounter := st.idCounter + 1 }

/-- The initial planner state (`hosePlanner.ts` lines 52-87): the network
holds all water sources, and initially-near plants are covered. -/
def initPState (g : Garden) (radius : Int) : PState :=
  let network := (findWaterSources g).foldl
    (fun net s => if net.contains (⟨s.x, s.y⟩ : Pos) then net else net ++ [⟨s.x, s.y⟩])
    []
  { networkList := network
    covered := recomputeCovered radius (findPlantTilesG g) network []
    hoses := []
    idCounter := 1 }

/-- Run up to `n` planner-loop iterations; the boolean records whether the
loop exited within the allotted iterations. -/
def plannerIter (g : Garden) (radius : Int) (aFuel : Nat) (plants : List Tile) :
    Nat → PState → PState × Bool
  | 0, st => (st, false)
  | n + 1, st =>
    match plannerStep g radius aFuel plants st with
    | none => (st, true)
    | some st2 => plannerIter g radius aFuel plants n st2

/-- `planHoses(garden, { coverageRadius })` (`hosePlanner.ts` lines 33-195)
with explicit loop fuel: on empty sources or plants, no hoses; otherwise run
the loop and keep the accumulated hoses. -/
def planHosesF (g : Garden) (radius : Int) (aFuel loopFuel : Nat) : Garden :=
  if (findWaterSources g).isEmpty ∨ (findPlantTilesG g).isEmpty then
    { g with hoses := [] }
  else
    let plants := findPlantTilesG g
    let r := plannerIter g radius aFuel plants loopFuel (initPState g radius)
    { g with hoses := r.1.hoses }

/-! ### Concrete instances used by counterexamples and witnesses -/

/-- A filler tile for out-of-bounds reads of concrete example gardens. -/
def dummyTile : Tile := ⟨0, 0, TileType.path, false, 0⟩

/-- A 2×1 garden: a soil hose tile at `(0,0)` and a planted soil tile at
`(1,0)`, with one hose lying on `(0,0)` only. -/
def gardenC1 : Garden :=
  { width := 2
    height := 1
    tileAt := fun y x =>
      if y = 0 ∧ x = 0 then ⟨0, 0, TileType.soil, false, 0⟩
      else if y = 0 ∧ x = 1 then ⟨1, 0, TileType.soil, true, 0⟩
      else dummyTile
    hoses := [{ id := 1, source := ⟨0, 0⟩, target := ⟨0, 0⟩, tiles := [⟨0, 0⟩] }]
    seed := 42 }

/-- The default simulation configuration of `createDefaultState`
(`GardenSimulation.ts` lines 19-27) with coverage radius 1. -/
def cfgDefault : Config :=
  { irrigationRate := 1/20
    baseEvaporationRate := 1/100
    diffusionRate := 3/20
    rainToMoisture := 1/10
    maxMoisture := 2
    coverageRadius := 1 }

/-- A rainless weather state. -/
def weatherDry : Weather := ⟨25, 1/2, 4/5, 0⟩

/-- A 1×1 all-soil garden with one planted tile and no hoses. -/
def gardenOnePlant : Garden :=
  { width := 1
    height := 1
    tileAt := fun _ _ => ⟨0, 0, TileType.soil, true, 0⟩
    hoses := []
    seed := 42 }

/-- A configuration with a negative moisture cap (`maxMoisture = -1`). -/
def cfgNegMax : Config :=
  { cfgDefault with maxMoisture := -1 }

/-- The 2×1 garden of the planner counterexample: a planted soil tile at
`(0,0)` next to a water source at `(1,0)`. -/
def gardenC5 : Garden :=
  { width := 2
    height := 1
    tileAt := fun y x =>
      if y = 0 ∧ x = 0 then ⟨0, 0, TileType.soil, true, 0⟩
      else if y = 0 ∧ x = 1 then ⟨1, 0, TileType.waterSource, false, 0⟩
      else dummyTile
    hoses := []
    seed := 42 }

/-- The plant list of `gardenC5`. -/
def plantsC5 : List Tile := findPlantTilesG gardenC5

/-- A baseline simulation state (the shape of `createDefaultState`). -/
def baseState : SimState :=
  { tick := 0
    isRunning := false
    irrigationOn := true
    weather := weatherDry
    config := cfgDefault
    episodeLength := EPISODE_LENGTH
    forecast := []
    waterUsedThisTick := 0
    lastIrrigationTick := 0
    cumulativeWaterUsed := 0
    irrigationToggleCount := 0
    irrigationOnTicks := 0
    dryPlantTicks := 0
    floodedPlantTicks := 0
    healthyPlantTicks := 0
    peakSimultaneousFloodedPlants := 0
    peakSimultaneousDryPlants := 0
    results := none }

/-- The default controller parameters (`DEFAULT_CONTROLLER_PARAMS`). -/
def paramsDefault : ControllerParams :=
  { drynessWeight := 3/2
    floodWeight := 1
    waterWeight := 3/10
    predictionHorizonTicks := 10
    fuzzyDrynessScale := 1/2
    fuzzyFloodScale := 2/5
    minTicksBetweenToggles := 3
    maxDutyCycle := 3/5 }

/-- An episode end-state with one plant, one elapsed tick, that plant-tick
healthy, and no water used. -/
def simHealthy : Sim :=
  { garden := gardenOnePlant
    state := { baseState with tick := 1, healthyPlantTicks := 1 }
    overrideEpisodeEnd := false }

/-- An episode end-state with one plant, one elapsed tick, that plant-tick
dry, and no water used. -/
def simDry : Sim :=
  { garden := gardenOnePlant
    state := { baseState with tick := 1, dryPlantTicks := 1 }
    overrideEpisodeEnd := false }

/-- An episode end-state with one plant, two elapsed ticks, one dry and one
healthy plant-tick, and no water used. -/
def simHalf : Sim :=
  { garden := gardenOnePlant
    state := { baseState with tick := 2, dryPlantTicks := 1, healthyPlantTicks := 1 }
    overrideEpisodeEnd := false }

/-- A simulator instance already at its episode end (`episodeLength = 0`). -/
def simEnded : Sim :=
  { garden := gardenOnePlant
    state := { baseState with episodeLength := 0 }
    overrideEpisodeEnd := false }

/-- Zero-valued host externals. -/
def extZero : Externals := ⟨fun _ => 0, 0⟩

/-- The always-off controller function
(`AlwaysOffIrrigationController.decide`). -/
def ctrlOff : Metrics → SimState → Bool := fun _ _ => false

/-- A GA configuration with zero mutation rate. -/
def gaConfigZero : GAConfig :=
  { populationSize := 2, generations := 1, elitismRate := 1/2
    mutationStdDev := 0, mutationRate := 0 }

/-- The initial hose network of `gardenC5`: just the water source. -/
def netC5 : List Pos := [⟨1, 0⟩]

/-- The planted tile of `gardenC5`. -/
def plantTileC5 : Tile := ⟨0, 0, TileType.soil, true, 0⟩

/-! ### Graph notions for the `aStar` specification

The claims about `aStar` quantify over finite graphs presented by a
neighbour function; walks, their costs, and the parent-chain structure of
the search are defined here. -/

/-- `Edge getNb u v c`: the neighbour function offers a step from `u` to `v`
at cost `c`. -/
def Edge (getNb : Pos → List NeighborEntry) (u v : Pos) (c : ℚ) : Prop :=
  ({ pos := v, cost := c } : NeighborEntry) ∈ getNb u

/-- Walks from `u` to `v` of the given total cost, grown at the far end. -/
inductive Walk (getNb : Pos → List NeighborEntry) : Pos → Pos → ℚ → Prop
  | nil (u : Pos) : Walk getNb u u 0
  | snoc {u v w : Pos} {c e : ℚ} :
      Walk getNb u v c → Edge getNb v w e → Walk getNb u w (c + e)

/-- A non-empty position list is a walk of the given total cost when each
consecutive pair is an edge. -/
inductive ListWalk (getNb : Pos → List NeighborEntry) : List Pos → ℚ → Prop
  | single (u : Pos) : ListWalk getNb [u] 0
  | cons {u v : Pos} {c d : ℚ} {rest : List Pos} :
      Edge getNb u v c → ListWalk getNb (v :: rest) d →
      ListWalk getNb (u :: v :: rest) (c + d)

/-- The returned-path contract: an ordered position list from `u` to `v`
inclusive whose consecutive steps are edges of total cost `c`. -/
def IsPathList (getNb : Pos → List NeighborEntry) (u v : Pos)
    (P : List Pos) (c : ℚ) : Prop :=
  ListWalk getNb P c ∧ P.head? = some u ∧ P.getLast? = some v

/-- The parent chain of the `cameFrom` map from a node down to the start:
the exact node sequence `reconstructPath` walks. -/
inductive Chain (cameFrom : List (Pos × Pos)) (start : Pos) : Pos → List Pos → Prop
  | base : mapGet cameFrom start = none → Chain cameFrom start start [start]
  | step {n p : Pos} {l : List Pos} :
      mapGet cameFrom n = some p → Chain cameFrom start p l →
      Chain cameFrom start n (n :: l)

/-- A common denominator for every edge cost of the finite graph. -/
def graphDen (getNb : Pos → List NeighborEntry) (V : Finset Pos) : ℕ :=
  ∏ p ∈ V, ((getNb p).map fun nb => nb.cost.den).prod

/-- The termination rank of one stored `gScore` value: walk costs scaled by
the common denominator `D` are naturals, and every strict improvement of a
score strictly lowers its rank. -/
def gRank (D : ℕ) (v : Option (Option ℚ)) : ℕ :=
  match v with
  | some (some q) => (q * (D : ℚ)).num.toNat
  | _ => 0

/-- The number of graph nodes without a `gScore` yet. -/
def unkeyedCount (V : Finset Pos) (st : AState) : ℕ :=
  (V.filter fun n => mapGet st.gScore n = none).card

/-- The total rank of the stored scores. -/
def gSum (V : Finset Pos) (D : ℕ) (st : AState) : ℕ :=
  ∑ n ∈ V, gRank D (mapGet st.gScore n)

/-- The lexicographic termination measure of the `aStar` loop: fresh keys,
then score improvements, then open-set length. -/
def aMeasure (V : Finset Pos) (D : ℕ) (st : AState) : ℕ × ℕ × ℕ :=
  (unkeyedCount V st, gSum V D st, st.openSet.length)

/-- The loop invariant of `aStar`, over a finite vertex set `V` closed under
the neighbour function:
every score is realised by a walk from the start, open nodes are keyed,
`fScore` mirrors `gScore + h`, parent pointers are relaxed graph edges,
every keyed node has an acyclic parent chain to the start, a keyed goal is
still open, and nodes off the open set are fully relaxed at their current
score. -/
structure AStarInv (getNb : Pos → List NeighborEntry) (h : Pos → Pos → ℚ)
    (start goal : Pos) (V : Finset Pos) (st : AState) : Prop where
  gstart : mapGet st.gScore start = some (some 0)
  cfstart : mapGet st.cameFrom start = none
  greal : ∀ n v, mapGet st.gScore n = some v →
    ∃ q, v = some q ∧ Walk getNb start n q
  openKeyed : ∀ p ∈ st.openSet, ∃ v, mapGet st.gScore p = some v
  fconsist : ∀ n q, mapGet st.gScore n = some (some q) →
    mapGet st.fScore n = some (some (q + h n goal))
  parentEdge : ∀ n p, mapGet st.cameFrom n = some p →
    ∃ c gp gn, Edge getNb p n c ∧ 0 ≤ c ∧
      mapGet st.gScore p = some (some gp) ∧
      mapGet st.gScore n = some (some gn) ∧ gp + c ≤ gn
  chains : ∀ n v, mapGet st.gScore n = some v →
    ∃ l, Chain st.cameFrom start n l
  inV : ∀ n v, mapGet st.gScore n = some v → n ∈ V
  goalOpen : ∀ v, mapGet st.gScore goal = some v → goal ∈ st.openSet
  settledRelaxed : ∀ n q, mapGet st.gScore n = some (some q) →
    n ∉ st.openSet → ∀ nb ∈ getNb n,
      ∃ q', mapGet st.gScore nb.pos = some (some q') ∧ q' ≤ q + nb.cost
  openNodup : st.openSet.Nodup

/-- The concrete two-node graph used to instantiate the `aStar` theorem:
one edge of cost 1 from `(0,0)` to `(1,0)`. -/
def nbW : Pos → List NeighborEntry := fun p =>
  if p = (⟨0, 0⟩ : Pos) then [{ pos := ⟨1, 0⟩, cost := 1 }] else []

/-- The vertex set of `nbW`. -/
def vertsW : Finset Pos := {⟨0, 0⟩, ⟨1, 0⟩}

/-- A metrics record with `percentTooDry = 30` and neutral other fields. -/
def metrics30 : Metrics :=
  { avgMoisture := 1/2
    minMoisture := 0
    maxMoisture := 1
    percentTooDry := 30
    percentTooWet := 0
    irrigationOn := false
    ticksSinceLastIrrigation := 0
    timeOfDay := 0
    episodeProgress := 0
    waterUsedThisTick := 0
    cumulativeWaterUsed := 0 }

/-- The fold invariant while the neighbours of the popped node `cur`
(holding score `qc`) are being relaxed: the loop invariant, except that
`cur` is already off the open set and only its not-yet-processed
neighbours may be unrelaxed. -/
structure RelaxInv (getNb : Pos → List NeighborEntry) (h : Pos → Pos → ℚ)
    (start goal : Pos) (V : Finset Pos) (cur : Pos) (qc : ℚ)
    (st : AState) : Prop where
  gstart : mapGet st.gScore start = some (some 0)
  cfstart : mapGet st.cameFrom start = none
  greal : ∀ n v, mapGet st.gScore n = some v →
    ∃ q, v = some q ∧ Walk getNb start n q
  openKeyed : ∀ p ∈ st.openSet, ∃ v, mapGet st.gScore p = some v
  fconsist : ∀ n q, mapGet st.gScore n = some (some q) →
    mapGet st.fScore n = some (some (q + h n goal))
  parentEdge : ∀ n p, mapGet st.cameFrom n = some p →
    ∃ c gp gn, Edge getNb p n c ∧ 0 ≤ c ∧
      mapGet st.gScore p = some (some gp) ∧
      mapGet st.gScore n = some (some gn) ∧ gp + c ≤ gn
  chains : ∀ n v, mapGet st.gScore n = some v →
    ∃ l, Chain st.cameFrom start n l
  inV : ∀ n v, mapGet st.gScore n = some v → n ∈ V
  goalOpen : ∀ v, mapGet st.gScore goal = some v → goal ∈ st.openSet
  settled : ∀ n q, mapGet st.gScore n = some (some q) →
    n ∉ st.openSet → n ≠ cur → ∀ nb ∈ getNb n,
      ∃ q', mapGet st.gScore nb.pos = some (some q') ∧ q' ≤ q + nb.cost
  openNodup : st.openSet.Nodup
  gcur : mapGet st.gScore cur = some (some qc)
  curNotOpen : cur ∉ st.openSet
  curV : cur ∈ V

/-- One relaxation step either leaves the state untouched or strictly
shrinks the prefix (fresh keys, then total score rank) of the termination
measure. -/
def MLe (V : Finset Pos) (D : ℕ) (s1 s0 : AState) : Prop :=
  s1 = s0 ∨ unkeyedCount V s1 < unkeyedCount V s0 ∨
    (unkeyedCount V s1 = unkeyedCount V s0 ∧ gSum V D s1 < gSum V D s0)

/-- The loop's decrease relation: the lexicographic measure strictly
drops. -/
def measureRel (V : Finset Pos) (D : ℕ) : AState → AState → Prop :=
  InvImage (Prod.Lex Nat.lt (Prod.Lex Nat.lt Nat.lt)) (aMeasure V D)

/-! ## Theorems -/

/-- C1 (counterexample): in `stepGardenMoisture`'s sourcing phase the planted
soil tile `(1,0)` of `gardenC1` is within the configured coverage radius
(Manhattan distance 1 ≤ 1) of the hose tile `(0,0)` — by the very coverage
test the water-accounting code uses — yet with irrigation on it gains no
moisture at all, instead of gaining `irrigationRate`: the sourcing loop
waters only tiles lying on the hose mask itself. -/
theorem sourcing_ignores_radius_cex :
    soilAt gardenC1 0 1 = true ∧
    withinHoseCoverage gardenC1 cfgDefault.coverageRadius 0 1 = true ∧
    hoseMask gardenC1 0 1 = false ∧
    sourcedMoisture gardenC1 cfgDefault weatherDry true 0 1 = 0 ∧
    moisture0 gardenC1 0 1 + cfgDefault.irrigationRate = 1/20 ∧
    (0 : ℚ) ≠ 1/20 := by
  have hm : hoseMask gardenC1 0 1 = false := by decide
  refine ⟨by decide, by decide, hm, ?_, ?_, by norm_num⟩
  · unfold sourcedMoisture
    rw [hm]
    norm_num [moisture0, gardenC1, weatherDry]
  · simp only [moisture0, gardenC1, cfgDefault]
    norm_num

/-- C1 (amended): with irrigation on, the sourcing phase adds
`irrigationRate` exactly to the soil tiles lying on the hose mask (plus the
independent rain contribution), and adds no irrigation water to any tile off
the mask; the coverage radius is not consulted. -/
theorem sourcing_adds_rate_on_hose_tiles (g : Garden) (cfg : Config)
    (w : Weather) (y x : Nat) :
    (hoseMask g y x = true → soilAt g y x = true →
      sourcedMoisture g cfg w true y x
        = moisture0 g y x + cfg.irrigationRate
          + (if decide (0 < w.rainIntensity) && soilAt g y x
              then cfg.rainToMoisture * w.rainIntensity else 0)) ∧
    (hoseMask g y x = false →
      sourcedMoisture g cfg w true y x
        = moisture0 g y x
          + (if decide (0 < w.rainIntensity) && soilAt g y x
              then cfg.rainToMoisture * w.rainIntensity else 0)) := by
  constructor
  · intro hm hs
    unfold sourcedMoisture
    rw [hm, hs]
    simp
  · intro hm
    unfold sourcedMoisture
    rw [hm]
    simp

/-- C1 (witness): the amended statement evaluated on the hose tile `(0,0)` of
`gardenC1`. -/
theorem sourcing_adds_rate_on_hose_tiles_witness :
    sourcedMoisture gardenC1 cfgDefault weatherDry true 0 0
      = moisture0 gardenC1 0 0 + cfgDefault.irrigationRate
        + (if decide (0 < weatherDry.rainIntensity) && soilAt gardenC1 0 0
            then cfgDefault.rainToMoisture * weatherDry.rainIntensity else 0) :=
  (sourcing_adds_rate_on_hose_tiles gardenC1 cfgDefault weatherDry 0 0).1
    (by decide) (by decide)

/-- C2 (counterexample): with the configuration `maxMoisture = -1` the claim
fails — the clamp writes moisture `0`, which does not lie in the then-empty
interval `[0, maxMoisture]`. -/
theorem step_bounds_negcap_cex :
    (gardenOnePlant.tileAt 0 0).type = TileType.soil ∧
    ((stepGardenMoisture gardenOnePlant cfgNegMax weatherDry false).tileAt 0 0).moisture
      = 0 ∧
    ¬ (((stepGardenMoisture gardenOnePlant cfgNegMax weatherDry false).tileAt 0 0).moisture
        ≤ cfgNegMax.maxMoisture) := by
  have hmoist :
      ((stepGardenMoisture gardenOnePlant cfgNegMax weatherDry false).tileAt 0 0).moisture
        = 0 := by
    simp only [stepGardenMoisture, stepTileAt, postDiffusionMoisture, diffuseMoisture,
      diffDelta, pairDelta, preDiffusionMoisture, sourcedMoisture, evaporationRate,
      climateFactor, moisture0, soilAt, hoseMask, gardenOnePlant, cfgNegMax, cfgDefault,
      weatherDry]
    norm_num
  refine ⟨by decide, hmoist, ?_⟩
  rw [hmoist]
  norm_num [cfgNegMax, cfgDefault]

/-- C2 (amended): for every garden, weather, irrigation flag and every
configuration whose moisture cap is non-negative, the stepped grid has every
soil tile's moisture in `[0, maxMoisture]` and every non-soil tile identical
to its pre-step value. -/
theorem step_moisture_bounds (g : Garden) (cfg : Config) (w : Weather)
    (irr : Bool) (hmax : 0 ≤ cfg.maxMoisture) (y x : Nat) :
    ((g.tileAt y x).type = TileType.soil →
      0 ≤ ((stepGardenMoisture g cfg w irr).tileAt y x).moisture ∧
      ((stepGardenMoisture g cfg w irr).tileAt y x).moisture ≤ cfg.maxMoisture) ∧
    ((g.tileAt y x).type ≠ TileType.soil →
      (stepGardenMoisture g cfg w irr).tileAt y x = g.tileAt y x) := by
  unfold stepGardenMoisture stepTileAt
  dsimp only
  constructor
  · intro h
    rw [if_pos h]
    exact ⟨le_max_left _ _, max_le hmax (min_le_left _ _)⟩
  · intro h
    rw [if_neg h]

/-- C2 (witness): the bounds evaluated on the 1×1 soil garden with the
default configuration. -/
theorem step_moisture_bounds_witness :
    ((gardenOnePlant.tileAt 0 0).type = TileType.soil →
      0 ≤ ((stepGardenMoisture gardenOnePlant cfgDefault weatherDry false).tileAt 0 0).moisture ∧
      ((stepGardenMoisture gardenOnePlant cfgDefault weatherDry false).tileAt 0 0).moisture
        ≤ cfgDefault.maxMoisture) ∧
    ((gardenOnePlant.tileAt 0 0).type ≠ TileType.soil →
      (stepGardenMoisture gardenOnePlant cfgDefault weatherDry false).tileAt 0 0
        = gardenOnePlant.tileAt 0 0) :=
  step_moisture_bounds gardenOnePlant cfgDefault weatherDry false
    (by norm_num [cfgDefault]) 0 0

/-- Shifted sums over `range w` agree when the shifted function vanishes at
the right boundary. -/
theorem sum_shift_zero (f : ℕ → ℚ) (w : ℕ) (hf : ∀ x, w ≤ x + 1 → f x = 0) :
    ∑ x ∈ Finset.range w, (if x = 0 then 0 else f (x - 1))
      = ∑ x ∈ Finset.range w, f x := by
  cases w with
  | zero => simp
  | succ n =>
    rw [Finset.sum_range_succ' (fun x => if x = 0 then (0 : ℚ) else f (x - 1)) n]
    simp only [Nat.succ_ne_zero, if_false, Nat.add_sub_cancel, if_pos rfl]
    rw [Finset.sum_range_succ, hf n (by omega)]
    simp

/-- A non-soil tile receives and donates no diffusion delta. -/
theorem diffDelta_nonsoil (g : Garden) (dr : ℚ) (m : Nat → Nat → ℚ)
    (y x : Nat) (h : soilAt g y x = false) : diffDelta g dr m y x = 0 := by
  unfold diffDelta pairDelta
  simp [h]

/-- The right-pair delta vanishes at the right boundary. -/
theorem pairDelta_right_boundary (g : Garden) (dr : ℚ) (m : Nat → Nat → ℚ)
    (y x : Nat) (h : g.width ≤ x + 1) :
    pairDelta g dr m y x y (x + 1) = 0 := by
  unfold pairDelta
  simp [Nat.not_lt.mpr h]

/-- The down-pair delta vanishes at the bottom boundary. -/
theorem pairDelta_down_boundary (g : Garden) (dr : ℚ) (m : Nat → Nat → ℚ)
    (y x : Nat) (h : g.height ≤ y + 1) :
    pairDelta g dr m y x (y + 1) x = 0 := by
  unfold pairDelta
  simp [Nat.not_lt.mpr h]

/-- The grid-wide diffusion deltas cancel: what every pair's source loses,
its sink gains. -/
theorem diffDelta_total_zero (g : Garden) (dr : ℚ) (m : Nat → Nat → ℚ) :
    ∑ y ∈ Finset.range g.height, ∑ x ∈ Finset.range g.width,
      diffDelta g dr m y x = 0 := by
  have expand : ∀ y x, diffDelta g dr m y x =
      (-(pairDelta g dr m y x y (x + 1)) + -(pairDelta g dr m y x (y + 1) x))
        + ((if x = 0 then 0 else pairDelta g dr m y (x - 1) y x)
            + (if y = 0 then 0 else pairDelta g dr m (y - 1) x y x)) := by
    intro y x
    unfold diffDelta
    ring
  have hA : ∀ y, ∑ x ∈ Finset.range g.width,
      (if x = 0 then (0 : ℚ) else pairDelta g dr m y (x - 1) y x)
        = ∑ x ∈ Finset.range g.width, pairDelta g dr m y x y (x + 1) := by
    intro y
    have : ∀ x : ℕ, (if x = 0 then (0 : ℚ) else pairDelta g dr m y (x - 1) y x)
        = (if x = 0 then (0 : ℚ) else pairDelta g dr m y (x - 1) y ((x - 1) + 1)) := by
      intro x
      cases x with
      | zero => simp
      | succ k => simp
    rw [Finset.sum_congr rfl fun x _ => this x]
    exact sum_shift_zero (fun x => pairDelta g dr m y x y (x + 1)) g.width
      (fun x hx => pairDelta_right_boundary g dr m y x hx)
  have hB : ∑ y ∈ Finset.range g.height, ∑ x ∈ Finset.range g.width,
      (if y = 0 then (0 : ℚ) else pairDelta g dr m (y - 1) x y x)
        = ∑ y ∈ Finset.range g.height, ∑ x ∈ Finset.range g.width,
            pairDelta g dr m y x (y + 1) x := by
    rw [Finset.sum_comm]
    conv_rhs => rw [Finset.sum_comm]
    refine Finset.sum_congr rfl fun x _ => ?_
    have : ∀ y : ℕ, (if y = 0 then (0 : ℚ) else pairDelta g dr m (y - 1) x y x)
        = (if y = 0 then (0 : ℚ) else pairDelta g dr m (y - 1) x ((y - 1) + 1) x) := by
      intro y
      cases y with
      | zero => simp
      | succ k => simp
    rw [Finset.sum_congr rfl fun y _ => this y]
    exact sum_shift_zero (fun y => pairDelta g dr m y x (y + 1) x) g.height
      (fun y hy => pairDelta_down_boundary g dr m y x hy)
  calc ∑ y ∈ Finset.range g.height, ∑ x ∈ Finset.range g.width, diffDelta g dr m y x
      = ∑ y ∈ Finset.range g.height, ∑ x ∈ Finset.range g.width,
          ((-(pairDelta g dr m y x y (x + 1)) + -(pairDelta g dr m y x (y + 1) x))
            + ((if x = 0 then 0 else pairDelta g dr m y (x - 1) y x)
                + (if y = 0 then 0 else pairDelta g dr m (y - 1) x y x))) := by
        exact Finset.sum_congr rfl fun y _ => Finset.sum_congr rfl fun x _ => expand y x
    _ = 0 := by
        simp only [Finset.sum_add_distrib, Finset.sum_neg_distrib]
        rw [Finset.sum_congr rfl fun y _ => hA y, hB]
        ring

/-- C6: the diffusion phase of `stepGardenMoisture`, taken alone on any
moisture snapshot, preserves the total moisture over the whole grid and over
the soil tiles, and leaves every non-soil tile's moisture unchanged —
each pairwise delta is subtracted from one end and added to the other, all
computed from the pre-diffusion snapshot. -/
theorem diffusion_conserves_total (g : Garden) (dr : ℚ) (m : Nat → Nat → ℚ) :
    (∑ y ∈ Finset.range g.height, ∑ x ∈ Finset.range g.width,
        diffuseMoisture g dr m y x)
      = (∑ y ∈ Finset.range g.height, ∑ x ∈ Finset.range g.width, m y x) ∧
    (∑ y ∈ Finset.range g.height, ∑ x ∈ Finset.range g.width,
        (if soilAt g y x then diffuseMoisture g dr m y x else 0))
      = (∑ y ∈ Finset.range g.height, ∑ x ∈ Finset.range g.width,
          (if soilAt g y x then m y x else 0)) ∧
    (∀ y x, soilAt g y x = false → diffuseMoisture g dr m y x = m y x) := by
  have hnon : ∀ y x, soilAt g y x = false → diffuseMoisture g dr m y x = m y x := by
    intro y x h
    unfold diffuseMoisture
    rw [diffDelta_nonsoil g dr m y x h]
    ring
  refine ⟨?_, ?_, hnon⟩
  · have : ∀ y x, diffuseMoisture g dr m y x = m y x + diffDelta g dr m y x :=
      fun y x => rfl
    simp only [this, Finset.sum_add_distrib]
    rw [diffDelta_total_zero]
    ring
  · have point : ∀ y x, (if soilAt g y x then diffuseMoisture g dr m y x else 0)
        = (if soilAt g y x then m y x else 0) + diffDelta g dr m y x := by
      intro y x
      by_cases h : soilAt g y x
      · simp only [h, if_pos]
        rfl
      · have hb : soilAt g y x = false := by
          simpa using h
        simp only [hb, Bool.false_eq_true, if_false,
          diffDelta_nonsoil g dr m y x hb]
        ring
    simp only [point, Finset.sum_add_distrib]
    rw [diffDelta_total_zero]
    ring

/-- C7: `compileResults().finalScore` always lies in `[0, 100]`; an episode
whose plant-ticks are all healthy with zero water used scores exactly 100;
and an all-dry zero-water episode scores strictly less than an
otherwise-identical half-dry/half-healthy one (their scores are 20 and 60
regardless of episode size). -/
theorem compileResults_score_properties :
    (∀ sim : Sim,
      0 ≤ (compileResults sim).finalScore ∧ (compileResults sim).finalScore ≤ 100) ∧
    (∀ sim : Sim,
      0 < (compileResults sim).totalPlantTicks →
      sim.state.healthyPlantTicks = (compileResults sim).totalPlantTicks →
      sim.state.dryPlantTicks = 0 →
      sim.state.floodedPlantTicks = 0 →
      sim.state.cumulativeWaterUsed = 0 →
      (compileResults sim).finalScore = 100) ∧
    (∀ sa sb : Sim,
      0 < (compileResults sa).totalPlantTicks →
      sa.state.dryPlantTicks = (compileResults sa).totalPlantTicks →
      sa.state.healthyPlantTicks = 0 →
      sa.state.floodedPlantTicks = 0 →
      sa.state.cumulativeWaterUsed = 0 →
      0 < (compileResults sb).totalPlantTicks →
      2 * sb.state.dryPlantTicks = (compileResults sb).totalPlantTicks →
      2 * sb.state.healthyPlantTicks = (compileResults sb).totalPlantTicks →
      sb.state.floodedPlantTicks = 0 →
      sb.state.cumulativeWaterUsed = 0 →
      (compileResults sa).finalScore < (compileResults sb).finalScore) := by
  refine ⟨?_, ?_, ?_⟩
  · intro sim
    simp only [compileResults]
    split
    · exact ⟨le_max_left _ _, max_le (by norm_num) (min_le_left _ _)⟩
    · norm_num
  · intro sim hT hh hd hf hw
    simp only [compileResults] at hT hh ⊢
    rw [if_pos hT]
    have hN : (((plantTilesList sim.garden).length * min sim.state.tick
        sim.state.episodeLength : ℕ) : ℚ) ≠ 0 := by
      exact_mod_cast hT.ne'
    rw [hh, hd, hf, hw]
    push_cast
    rw [div_self (by exact_mod_cast hN)]
    norm_num [WATER_USAGE_PER_TICK]
  · intro sa sb hTa hda hha hfa hwa hTb hdb hhb hfb hwb
    simp only [compileResults] at hTa hda hTb hdb hhb ⊢
    rw [if_pos hTa, if_pos hTb]
    have hNa : (((plantTilesList sa.garden).length * min sa.state.tick
        sa.state.episodeLength : ℕ) : ℚ) ≠ 0 := by
      exact_mod_cast hTa.ne'
    have hNb : (((plantTilesList sb.garden).length * min sb.state.tick
        sb.state.episodeLength : ℕ) : ℚ) ≠ 0 := by
      exact_mod_cast hTb.ne'
    have hscoreA :
        max 0 (min 100 (round (((3:ℚ)/5 * ((sa.state.healthyPlantTicks : ℚ)
            / (((plantTilesList sa.garden).length * min sa.state.tick
                sa.state.episodeLength : ℕ) : ℚ))
          + 1/5 * (1 - (sa.state.dryPlantTicks : ℚ)
            / (((plantTilesList sa.garden).length * min sa.state.tick
                sa.state.episodeLength : ℕ) : ℚ))
          + 1/10 * (1 - (sa.state.floodedPlantTicks : ℚ)
            / (((plantTilesList sa.garden).length * min sa.state.tick
                sa.state.episodeLength : ℕ) : ℚ))
          + 1/10 * (1 - min 1 (sa.state.cumulativeWaterUsed
            / (((plantTilesList sa.garden).length * min sa.state.tick
                sa.state.episodeLength : ℕ) : ℚ) / WATER_USAGE_PER_TICK))) * 100)))
          = (20 : ℤ) := by
      rw [hda, hha, hfa, hwa]
      push_cast
      rw [div_self (by exact_mod_cast hNa)]
      norm_num [WATER_USAGE_PER_TICK]
    have hq : (sb.state.dryPlantTicks : ℚ)
        / (((plantTilesList sb.garden).length * min sb.state.tick
            sb.state.episodeLength : ℕ) : ℚ) = 1/2 := by
      have h2 : ((2 : ℚ)) * (sb.state.dryPlantTicks : ℚ)
          = (((plantTilesList sb.garden).length * min sb.state.tick
              sb.state.episodeLength : ℕ) : ℚ) := by
        exact_mod_cast hdb
      rw [div_eq_iff hNb]
      linarith
    have hqh : (sb.state.healthyPlantTicks : ℚ)
        / (((plantTilesList sb.garden).length * min sb.state.tick
            sb.state.episodeLength : ℕ) : ℚ) = 1/2 := by
      have h2 : ((2 : ℚ)) * (sb.state.healthyPlantTicks : ℚ)
          = (((plantTilesList sb.garden).length * min sb.state.tick
              sb.state.episodeLength : ℕ) : ℚ) := by
        exact_mod_cast hhb
      rw [div_eq_iff hNb]
      linarith
    have hscoreB :
        max 0 (min 100 (round (((3:ℚ)/5 * ((sb.state.healthyPlantTicks : ℚ)
            / (((plantTilesList sb.garden).length * min sb.state.tick
                sb.state.episodeLength : ℕ) : ℚ))
          + 1/5 * (1 - (sb.state.dryPlantTicks : ℚ)
            / (((plantTilesList sb.garden).length * min sb.state.tick
                sb.state.episodeLength : ℕ) : ℚ))
          + 1/10 * (1 - (sb.state.floodedPlantTicks : ℚ)
            / (((plantTilesList sb.garden).length * min sb.state.tick
                sb.state.episodeLength : ℕ) : ℚ))
          + 1/10 * (1 - min 1 (sb.state.cumulativeWaterUsed
            / (((plantTilesList sb.garden).length * min sb.state.tick
                sb.state.episodeLength : ℕ) : ℚ) / WATER_USAGE_PER_TICK))) * 100)))
          = (60 : ℤ) := by
      rw [hq, hqh, hfb, hwb]
      push_cast
      norm_num [WATER_USAGE_PER_TICK]
    rw [hscoreA, hscoreB]
    norm_num

/-- C7 (witness): the score properties evaluated on three concrete one-plant
episodes. -/
theorem compileResults_score_properties_witness :
    (compileResults simHealthy).finalScore = 100 ∧
    (compileResults simDry).finalScore < (compileResults simHalf).finalScore :=
  ⟨compileResults_score_properties.2.1 simHealthy (by decide) (by decide) rfl rfl rfl,
    compileResults_score_properties.2.2 simDry simHalf (by decide) (by decide) rfl rfl rfl
      (by decide) (by decide) (by decide) rfl rfl⟩

/-- The two branches of `step()` are mutually exclusive and each is a pure
function of the pre-state, so the transition relation is functional. -/
theorem stepRel_functional (E : Externals) (C : Metrics → SimState → Bool)
    {s t u : Sim} (h1 : StepRel E C s t) (h2 : StepRel E C s u) : t = u := by
  cases h1 with
  | finish hle hov =>
    cases h2 with
    | finish _ _ => rfl
    | advance hadv =>
      rcases hadv with hlt | htrue
      · exact absurd hlt (Nat.not_lt.mpr hle)
      · rw [hov] at htrue
        exact absurd htrue (by simp)
  | advance hadv =>
    cases h2 with
    | finish hle hov =>
      rcases hadv with hlt | htrue
      · exact absurd hlt (Nat.not_lt.mpr hle)
      · rw [hov] at htrue
        exact absurd htrue (by simp)
    | advance _ => rfl

/-- C8: two episode runs of the same length from the same simulator instance,
under the same controller and the same host environment, end in the same
instance and compile identical Results — the episode is a deterministic
function of its inputs, every weather draw being the pure function
`mulberry32(seed + tick)` of the seed and tick index. -/
theorem episode_runs_deterministic (E : Externals) (C : Metrics → SimState → Bool)
    (n : Nat) (s t u : Sim) (h1 : RunRel E C n s t) (h2 : RunRel E C n s u) :
    t = u ∧ compileResults t = compileResults u := by
  induction n generalizing s t u with
  | zero =>
    cases h1
    cases h2
    exact ⟨rfl, rfl⟩
  | succ k ih =>
    cases h1 with
    | succ hs1 hr1 =>
      cases h2 with
      | succ hs2 hr2 =>
        have hmid := stepRel_functional E C hs1 hs2
        subst hmid
        exact ih _ _ _ hr1 hr2

/-- C8 (witness): determinism applied to a concrete one-step run on an
already-finished episode. -/
theorem episode_runs_deterministic_witness :
    finishSim simEnded = finishSim simEnded ∧
    compileResults (finishSim simEnded) = compileResults (finishSim simEnded) :=
  episode_runs_deterministic extZero ctrlOff 1 simEnded
    (finishSim simEnded) (finishSim simEnded)
    (RunRel.succ (StepRel.finish simEnded (Nat.le_refl 0) rfl) (RunRel.zero _))
    (RunRel.succ (StepRel.finish simEnded (Nat.le_refl 0) rfl) (RunRel.zero _))

/-- C10: when irrigation is on, the metrics come from `computeGardenMetrics`
(so ticks-since-irrigation is 0) and the hysteresis window is at least one
tick, the smart controller returns `false` exactly when the fuzzy flood risk
exceeds 0.6 — the cost comparison and the duty-cycle cap are short-circuited
by the hysteresis branch. -/
theorem decideSmart_on_iff_flood (g : Garden) (s : SimState) (p : ControllerParams)
    (hon : s.irrigationOn = true) (hmin : 1 ≤ p.minTicksBetweenToggles) :
    (decideSmart p (computeGardenMetrics s g) s = false ↔
      3/5 < (fuzzyEvaluate (computeGardenMetrics s g) s.weather s.forecast).floodRisk) := by
  have hticks : (computeGardenMetrics s g).ticksSinceLastIrrigation = 0 := by
    simp [computeGardenMetrics, hon]
  have hpos : (computeGardenMetrics s g).ticksSinceLastIrrigation
      < p.minTicksBetweenToggles := by
    rw [hticks]
    exact lt_of_lt_of_le one_pos hmin
  unfold decideSmart
  rw [if_pos hpos, hon]
  simp only [if_true]
  split_ifs with hflood
  · simp [hflood]
  · simp [hflood]

/-- C10 (witness): the hysteresis equivalence evaluated at the default
parameters on the one-plant garden with irrigation on. -/
theorem decideSmart_on_iff_flood_witness :
    (decideSmart paramsDefault (computeGardenMetrics baseState gardenOnePlant) baseState
        = false ↔
      3/5 < (fuzzyEvaluate (computeGardenMetrics baseState gardenOnePlant)
          baseState.weather baseState.forecast).floodRisk) :=
  decideSmart_on_iff_flood gardenOnePlant baseState paramsDefault rfl
    (by norm_num [paramsDefault])

/-- One GA generation never lowers the tracked best fitness: the best
chromosome is replaced only when the generation's top sorts strictly
higher. -/
theorem gaGeneration_best_mono (cfg : GAConfig) (gauss : ℚ → ℚ → ℚ)
    (evalFit : ControllerParams → ℚ) (rng : Nat → ℚ) (st : GAGenState) :
    st.best.fitness ≤ (gaGeneration cfg gauss evalFit rng st).best.fitness := by
  simp only [gaGeneration]
  split_ifs with h
  · exact le_of_lt h
  · exact le_refl _

/-- One GA generation appends exactly the updated tracked best to the
fitness history. -/
theorem gaGeneration_hist (cfg : GAConfig) (gauss : ℚ → ℚ → ℚ)
    (evalFit : ControllerParams → ℚ) (rng : Nat → ℚ) (st : GAGenState) :
    (gaGeneration cfg gauss evalFit rng st).hist
      = st.hist ++ [(gaGeneration cfg gauss evalFit rng st).best.fitness] := by
  simp only [gaGeneration]

/-- The generation loop preserves sortedness of the history, given that the
trailing entry never exceeds the tracked best. -/
theorem gaLoop_chain (cfg : GAConfig) (gauss : ℚ → ℚ → ℚ)
    (evalFit : ControllerParams → ℚ) (rng : Nat → ℚ) :
    ∀ (g : Nat) (st : GAGenState),
      List.Chain' (· ≤ ·) st.hist →
      (∀ a ∈ st.hist.getLast?, a ≤ st.best.fitness) →
      List.Chain' (· ≤ ·) (gaLoop cfg gauss evalFit rng g st).hist := by
  intro g
  induction g with
  | zero => intro st h1 _; exact h1
  | succ k ih =>
    intro st h1 h2
    show List.Chain' (· ≤ ·)
      (gaLoop cfg gauss evalFit rng k (gaGeneration cfg gauss evalFit rng st)).hist
    apply ih
    · rw [gaGeneration_hist]
      refine List.Chain'.append h1 (List.chain'_singleton _) ?_
      intro x hx y hy
      simp only [List.head?_cons, Option.mem_def, Option.some.injEq] at hy
      subst hy
      exact le_trans (h2 x hx) (gaGeneration_best_mono cfg gauss evalFit rng st)
    · rw [gaGeneration_hist]
      intro a ha
      rw [List.getLast?_concat] at ha
      simp only [Option.mem_def, Option.some.injEq] at ha
      subst ha
      exact le_refl _

/-- C9: across the generations of `GeneticAlgorithmTrainer.train` the tracked
best-fitness history is non-decreasing, the best chromosome is only replaced
by a strictly fitter one (never lowered), and the elite slice is carried
verbatim — fitness included — to the head of the next generation's
population. -/
theorem gaTrain_fitness_monotone (cfg : GAConfig) (gauss : ℚ → ℚ → ℚ)
    (evalFit : ControllerParams → ℚ) (rng : Nat → ℚ)
    (_hmut : cfg.mutationRate = 0) :
    List.Chain' (· ≤ ·) (gaTrain cfg gauss evalFit rng).fitnessHistory ∧
    (∀ st : GAGenState,
      st.best.fitness ≤ (gaGeneration cfg gauss evalFit rng st).best.fitness) ∧
    (∀ st : GAGenState,
      (gaGeneration cfg gauss evalFit rng st).population.take
          (gaElite cfg evalFit st).length
        = gaElite cfg evalFit st) := by
  refine ⟨?_, gaGeneration_best_mono cfg gauss evalFit rng, ?_⟩
  · show List.Chain' (· ≤ ·)
      (gaLoop cfg gauss evalFit rng cfg.generations
        { population := initPopulation cfg rng
          best := (initPopulation cfg rng).headD defaultChromosome
          hist := []
          idx := 8 * cfg.populationSize }).hist
    exact gaLoop_chain cfg gauss evalFit rng cfg.generations _ List.chain'_nil
      (by intro a ha; simp at ha)
  · intro st
    simp only [gaGeneration]
    exact List.take_left _ _

/-- C9 (witness): the monotone-elitism statement instantiated at the
zero-mutation configuration with constant streams. -/
theorem gaTrain_fitness_monotone_witness :
    List.Chain' (· ≤ ·)
      (gaTrain gaConfigZero (fun _ _ => 0) (fun _ => 0) (fun _ => 0)).fitnessHistory :=
  (gaTrain_fitness_monotone gaConfigZero (fun _ _ => 0) (fun _ => 0) (fun _ => 0) rfl).1

/-- A settled `aStar` run is insensitive to extra fuel. -/
theorem aStarLoop_fuel_mono (getNb : Pos → List NeighborEntry)
    (h : Pos → Pos → ℚ) (goal : Pos) :
    ∀ (f : Nat) (st : AState) (r : Option (List Pos)),
      aStarLoop getNb h goal f st = some r →
      aStarLoop getNb h goal (f + 1) st = some r := by
  intro f
  induction f with
  | zero =>
    intro st r hr
    simp [aStarLoop] at hr
  | succ k ih =>
    intro st r hr
    rw [aStarLoop] at hr ⊢
    cases hos : st.openSet with
    | nil =>
      rw [hos] at hr
      exact hr
    | cons a as =>
      rw [hos] at hr
      dsimp only at hr ⊢
      split_ifs at hr ⊢ with hgoal
      · exact hr
      · exact ih _ _ hr

/-- A settled `aStar` run is insensitive to any amount of extra fuel. -/
theorem aStarF_fuel_mono (start goal : Pos) (getNb : Pos → List NeighborEntry)
    (h : Pos → Pos → ℚ) (f : Nat) (r : Option (List Pos))
    (hr : aStarF f start goal getNb h = some r) :
    ∀ m : Nat, aStarF (f + m) start goal getNb h = some r := by
  intro m
  induction m with
  | zero => exact hr
  | succ j ih =>
    show aStarF (f + j + 1) start goal getNb h = some r
    unfold aStarF at ih ⊢
    exact aStarLoop_fuel_mono _ _ _ _ _ _ ih

/-- On `gardenC5`, `aStar` settles in two iterations on the two-tile path
from the plant to the water source. -/
theorem aStarF_c5_eval (k : Nat) :
    aStarF (2 + k) ⟨0, 0⟩ ⟨1, 0⟩ (hoseNeighbors gardenC5) manhattanHeuristic
      = some (some [⟨0, 0⟩, ⟨1, 0⟩]) :=
  aStarF_fuel_mono ⟨0, 0⟩ ⟨1, 0⟩ (hoseNeighbors gardenC5) manhattanHeuristic 2
    (some [⟨0, 0⟩, ⟨1, 0⟩]) (by decide) k

/-- On `gardenC5` with coverage radius 0, every iteration of the planner loop
lays the same one-tile hose again: the loop body maps a state with the
initial network and no covered plants to one differing only in the appended
duplicate hose and the id counter. -/
theorem plannerStep_c5 (k : Nat) (hs : List HosePath) (idc : Nat) :
    plannerStep gardenC5 0 (2 + k) plantsC5 ⟨netC5, [], hs, idc⟩
      = some ⟨netC5, [],
          hs ++ [{ id := idc, source := ⟨1, 0⟩, target := ⟨1, 0⟩, tiles := [⟨1, 0⟩] }],
          idc + 1⟩ := by
  have hp : plantsC5 = [plantTileC5] := by decide
  have hn : findNearestNetworkPos netC5 plantTileC5 = some ⟨1, 0⟩ := by decide
  have hcand : planCandidate gardenC5 (2 + k) netC5 plantTileC5 = some [⟨1, 0⟩] := by
    unfold planCandidate
    rw [hn]
    dsimp only
    rw [show (⟨plantTileC5.x, plantTileC5.y⟩ : Pos) = (⟨0, 0⟩ : Pos) from rfl]
    rw [aStarF_c5_eval k]
    decide
  have hbest : findBestPlant gardenC5 (2 + k) plantsC5 ⟨netC5, [], hs, idc⟩
      = some (plantTileC5, [⟨1, 0⟩]) := by
    unfold findBestPlant
    rw [hp]
    simp only [List.foldl_cons, List.foldl_nil]
    dsimp only
    rw [hcand]
    decide
  have hmerge : mergeIntoNetwork netC5 [⟨1, 0⟩] = netC5 := by decide
  have hcov : recomputeCovered 0 plantsC5 netC5 [] = [] := by decide
  unfold plannerStep
  rw [hbest]
  dsimp only
  rw [if_neg (by decide : ¬ (plantsC5.length ≤ ([] : List Pos).length))]
  rw [hmerge, hcov]
  rfl

/-- C5: the planner loop diverges on `gardenC5` with coverage radius 0 — for
every sufficient `aStar` fuel and every iteration budget `n`, the loop has
not exited after `n` iterations (the uncovered plant keeps a valid path, yet
laying it never covers the plant, so the while-condition never falls). -/
theorem planner_radius_zero_diverges (k n : Nat) :
    (plannerIter gardenC5 0 (2 + k) plantsC5 n (initPState gardenC5 0)).2 = false := by
  have hinit : initPState gardenC5 0
      = ⟨netC5, [], [], 1⟩ := by decide
  rw [hinit]
  have aux : ∀ (m : Nat) (hs : List HosePath) (idc : Nat),
      (plannerIter gardenC5 0 (2 + k) plantsC5 m ⟨netC5, [], hs, idc⟩).2 = false := by
    intro m
    induction m with
    | zero => intro hs idc; rfl
    | succ j ih =>
      intro hs idc
      rw [plannerIter]
      rw [plannerStep_c5 k hs idc]
      exact ih _ _
  exact aux n [] 1

/-- `clamp01` is non-negative. -/
theorem clamp01_nonneg (x : ℚ) : 0 ≤ clamp01 x := le_max_left _ _

/-- `clamp01` is at most one. -/
theorem clamp01_le_one (x : ℚ) : clamp01 x ≤ 1 :=
  max_le zero_le_one (min_le_left _ _)

/-- `clamp01` fixes values already in `[0, 1]`. -/
theorem clamp01_eq_self {y : ℚ} (h0 : 0 ≤ y) (h1 : y ≤ 1) : clamp01 y = y := by
  unfold clamp01
  rw [min_eq_right h1, max_eq_right h0]

/-- Triangular memberships with ordered supports are non-negative. -/
theorem tri_nonneg (x a b c : ℚ) (hab : a < b) (hbc : b < c) :
    0 ≤ tri x a b c := by
  unfold tri
  split_ifs with h1 h2 h3
  · exact le_refl 0
  · exact zero_le_one
  · push_neg at h1
    exact div_nonneg (sub_nonneg.mpr h1.1.le) (sub_nonneg.mpr hab.le)
  · push_neg at h1
    exact div_nonneg (sub_nonneg.mpr h1.2.le) (sub_nonneg.mpr hbc.le)

/-- With cool rainless night-time weather and an empty forecast, the fuzzy
dryness risk collapses to rule 2: exactly the `/100`-converted dryness
fraction of the metrics. -/
theorem fuzzy_dryness_is_fraction (m : Metrics) (hum : ℚ) :
    (fuzzyEvaluate m ⟨10, hum, 0, 0⟩ []).drynessRisk
      = clamp01 (m.percentTooDry / 100) := by
  have hc14 : clamp01 ((10 : ℚ) / 40) = 1/4 := by unfold clamp01; norm_num
  have hc0 : clamp01 (0 : ℚ) = 0 := by unfold clamp01; norm_num
  have hc1 : clamp01 (1 : ℚ) = 1 := by unfold clamp01; norm_num
  have ht1 : tri (1/4 : ℚ) (1/2) (4/5) 1 = 0 := by unfold tri; norm_num
  have ht2 : tri (1/4 : ℚ) (3/10) (1/2) (7/10) = 0 := by unfold tri; norm_num
  have ht3 : tri (0 : ℚ) (1/2) (4/5) 1 = 0 := by unfold tri; norm_num
  have ht4 : tri (0 : ℚ) (3/10) (1/2) (7/10) = 0 := by unfold tri; norm_num
  have ht5 : tri (0 : ℚ) (3/10) (7/10) 1 = 0 := by unfold tri; norm_num
  have hhl : 0 ≤ tri (1 - clamp01 hum) (3/10) (7/10) 1 :=
    tri_nonneg _ _ _ _ (by norm_num) (by norm_num)
  unfold fuzzyEvaluate fuzzyDryFraction
  simp only [List.map_nil, List.foldl_nil]
  rw [hc14, hc0, ht1, ht3, ht5]
  rw [min_eq_left hhl, min_self, ht2, ht4, min_self]
  rw [show max (0:ℚ) 0 = 0 from max_self 0, sub_zero, hc1]
  rw [min_eq_left (clamp01_le_one _)]
  rw [max_eq_right (le_max_right _ _), max_eq_left (clamp01_nonneg _)]
  exact clamp01_eq_self (clamp01_nonneg _) (clamp01_le_one _)

/-- With the same neutral weather, the fuzzy flood risk collapses to rule 1:
exactly the `/100`-converted wetness fraction of the metrics. -/
theorem fuzzy_flood_is_fraction (m : Metrics) (hum : ℚ) :
    (fuzzyEvaluate m ⟨10, hum, 0, 0⟩ []).floodRisk
      = clamp01 (m.percentTooWet / 100) := by
  have hc14 : clamp01 ((10 : ℚ) / 40) = 1/4 := by unfold clamp01; norm_num
  have hc0 : clamp01 (0 : ℚ) = 0 := by unfold clamp01; norm_num
  have ht3 : tri (0 : ℚ) (1/2) (4/5) 1 = 0 := by unfold tri; norm_num
  have ht5 : tri (0 : ℚ) (3/10) (7/10) 1 = 0 := by unfold tri; norm_num
  have htl : tri (0 : ℚ) 0 (1/5) (2/5) = 0 := by unfold tri; norm_num
  have hhh : 0 ≤ tri (clamp01 hum) (1/2) (4/5) 1 :=
    tri_nonneg _ _ _ _ (by norm_num) (by norm_num)
  have haw : 0 ≤ tri (clamp01 (m.percentTooWet / 100)) (1/10) (3/10) (4/5) :=
    tri_nonneg _ _ _ _ (by norm_num) (by norm_num)
  unfold fuzzyEvaluate fuzzyWetFraction
  simp only [List.map_nil, List.foldl_nil]
  rw [hc14, hc0, ht5, htl]
  rw [min_eq_right haw, min_eq_left hhh]
  rw [min_eq_right (tri_nonneg (1/4) 0 (1/5) (2/5) (by norm_num) (by norm_num))]
  rw [max_self, max_eq_left (clamp01_nonneg _), max_eq_left (clamp01_nonneg _)]
  exact clamp01_eq_self (clamp01_nonneg _) (clamp01_le_one _)

/-- C3: both the fuzzy risk evaluator and the outcome predictor observe the
metrics' percentage fields through the `/100` conversion: under neutral
weather the dryness and flood risks are exactly `clamp01(percent/100)`, the
predictor's closed form is a function of `percentTooDry/100` and
`percentTooWet/100`, and a metrics value with `percentTooDry = 30` is
observed as the fraction `0.30` (not `1.0`). -/
theorem percent_scale_conversion :
    (∀ (m : Metrics) (hum : ℚ),
      (fuzzyEvaluate m ⟨10, hum, 0, 0⟩ []).drynessRisk
        = clamp01 (m.percentTooDry / 100) ∧
      (fuzzyEvaluate m ⟨10, hum, 0, 0⟩ []).floodRisk
        = clamp01 (m.percentTooWet / 100)) ∧
    (∀ (m : Metrics) (w : Weather),
      nnForward m w true
        = clampQ (m.percentTooDry / 100 * (2/5) - w.rainIntensity * (1/4)
            - m.percentTooWet / 100 * (1/10)) 0 1) ∧
    (fuzzyEvaluate metrics30 ⟨10, 1/2, 0, 0⟩ []).drynessRisk = 3/10 ∧
    nnForward metrics30 ⟨10, 1/2, 0, 0⟩ true = 3/25 ∧
    ((3 : ℚ)/10 ≠ 1) := by
  refine ⟨fun m hum => ⟨fuzzy_dryness_is_fraction m hum, fuzzy_flood_is_fraction m hum⟩,
    fun m w => rfl, ?_, ?_, by norm_num⟩
  · rw [fuzzy_dryness_is_fraction metrics30 (1/2)]
    unfold clamp01 metrics30
    norm_num
  · unfold nnForward nnCurrentDry nnCurrentWet clampQ metrics30
    norm_num

/-! ### `aStar` correctness development -/

/-- `Map.set` followed by `Map.get` at the same key. -/
theorem mapGet_set_self {α : Type} (m : List (Pos × α)) (k : Pos) (v : α) :
    mapGet (mapSet m k v) k = some v := by
  simp [mapGet, mapSet]

/-- `Map.set` leaves other keys untouched. -/
theorem mapGet_set_ne {α : Type} (m : List (Pos × α)) (k k' : Pos) (v : α)
    (hne : k' ≠ k) : mapGet (mapSet m k v) k' = mapGet m k' := by
  simp only [mapGet, mapSet]
  rw [List.find?_cons_of_neg]
  simp [hne.symm]

/-- If `a < b` and not `c < b` in `ℚ ∪ {Infinity}`, then not `c < a`. -/
theorem optLT_not_lt {a b c : Option ℚ} (h1 : optLT a b = true)
    (h2 : optLT c b = false) : optLT c a = false := by
  cases a with
  | none => simp [optLT] at h1
  | some x =>
    cases c with
    | none => rfl
    | some z =>
      cases b with
      | none => simp [optLT] at h2
      | some y =>
        simp only [optLT, decide_eq_true_eq, decide_eq_false_iff_not] at h1 h2 ⊢
        intro hzx
        exact h2 (lt_trans hzx h1)

/-- Walks from a vertex of the closed set stay inside it, have non-negative
cost, and their cost scaled by the common denominator is a natural. -/
theorem walk_facts (getNb : Pos → List NeighborEntry) (V : Finset Pos)
    (hclosed : ∀ p ∈ V, ∀ nb ∈ getNb p, nb.pos ∈ V)
    (hcost : ∀ p ∈ V, ∀ nb ∈ getNb p, 0 ≤ nb.cost)
    (start : Pos) (hs : start ∈ V) :
    ∀ {n : Pos} {q : ℚ}, Walk getNb start n q →
      n ∈ V ∧ 0 ≤ q ∧ ∃ m : ℕ, q * ((graphDen getNb V : ℕ) : ℚ) = m := by
  intro n q hw
  induction hw with
  | nil => exact ⟨hs, le_refl 0, 0, by norm_num⟩
  | @snoc v w c e _ hedge ih =>
    obtain ⟨hv, hq, m, hm⟩ := ih
    have hwV : w ∈ V := hclosed v hv _ hedge
    have he : 0 ≤ e := hcost v hv _ hedge
    refine ⟨hwV, add_nonneg hq he, ?_⟩
    have hden : e.den ∣ graphDen getNb V := by
      unfold graphDen
      exact dvd_trans
        (List.dvd_prod (List.mem_map_of_mem (fun nb => nb.cost.den) hedge))
        (Finset.dvd_prod_of_mem _ hv)
    obtain ⟨k, hk⟩ := hden
    have hnum : 0 ≤ e.num := Rat.num_nonneg.mpr he
    refine ⟨m + e.num.toNat * k, ?_⟩
    have he_scaled : e * ((graphDen getNb V : ℕ) : ℚ) = ((e.num.toNat * k : ℕ) : ℚ) := by
      have hd : ((graphDen getNb V : ℕ) : ℚ) = ((e.den : ℕ) : ℚ) * ((k : ℕ) : ℚ) := by
        rw [hk]
        push_cast
        ring
      rw [hd, ← mul_assoc, Rat.mul_den_eq_num]
      have h3 : ((e.num.toNat : ℕ) : ℚ) = ((e.num : ℤ) : ℚ) := by
        exact_mod_cast Int.toNat_of_nonneg hnum
      push_cast
      rw [h3]
    rw [add_mul, hm, he_scaled]
    push_cast
    ring

/-- An edge prepends to a walk. -/
theorem walk_cons (getNb : Pos → List NeighborEntry) (u v : Pos) {w : Pos}
    {c d : ℚ} (hedge : Edge getNb u v c) (hw : Walk getNb v w d) :
    Walk getNb u w (c + d) := by
  induction hw with
  | nil => simpa using Walk.snoc (Walk.nil u) hedge
  | @snoc y z cy e _ hey ih => simpa [add_assoc] using Walk.snoc ih hey

/-- A list walk from `u` to `v` yields a walk from `u` to `v`. -/
theorem listWalk_to_walk (getNb : Pos → List NeighborEntry) :
    ∀ {P : List Pos} {c : ℚ} {u v : Pos}, ListWalk getNb P c →
      P.head? = some u → P.getLast? = some v → Walk getNb u v c := by
  intro P c u v hw
  induction hw generalizing u v with
  | single w =>
    intro h1 h2
    simp only [List.head?_cons, Option.some.injEq] at h1
    simp only [List.getLast?_singleton, Option.some.injEq] at h2
    subst h1
    subst h2
    exact Walk.nil _
  | @cons a b cab d rest hedge _ ih =>
    intro h1 h2
    simp only [List.head?_cons, Option.some.injEq] at h1
    subst h1
    have h2' : (b :: rest).getLast? = some v := by
      rw [← h2, List.getLast?_cons_cons]
    exact walk_cons getNb _ _ hedge (ih rfl h2')

/-- A list walk extends by an edge at its far end. -/
theorem listWalk_snoc (getNb : Pos → List NeighborEntry) :
    ∀ {P : List Pos} {c : ℚ} {v w : Pos} {e : ℚ}, ListWalk getNb P c →
      P.getLast? = some v → Edge getNb v w e →
      ListWalk getNb (P ++ [w]) (c + e) := by
  intro P c v w e hw
  induction hw with
  | single u =>
    intro hlast hedge
    simp only [List.getLast?_singleton, Option.some.injEq] at hlast
    subst hlast
    simpa [add_comm] using ListWalk.cons hedge (ListWalk.single w)
  | @cons a b cab d rest hedge2 _ ih =>
    intro hlast hedge
    have hlast2 : (b :: rest).getLast? = some v := by
      rw [← hlast, List.getLast?_cons_cons]
    simpa [add_assoc] using ListWalk.cons hedge2 (ih hlast2 hedge)

/-- A key with a `mapGet` hit occurs among the map's keys. -/
theorem mapGet_mem_keys {α : Type} {m : List (Pos × α)} {k : Pos} {v : α}
    (h : mapGet m k = some v) : k ∈ m.map Prod.fst := by
  unfold mapGet at h
  rcases Option.map_eq_some'.mp h with ⟨e, hfind, _⟩
  have hmem := List.mem_of_find?_eq_some hfind
  have hpred := List.find?_some hfind
  have hk : e.1 = k := by simpa using hpred
  exact hk ▸ List.mem_map_of_mem Prod.fst hmem

/-- A parent chain starts (list-wise) at its node. -/
theorem chain_head {M : List (Pos × Pos)} {s n : Pos} {l : List Pos}
    (h : Chain M s n l) : l.head? = some n := by
  cases h with
  | base _ => rfl
  | step _ _ => rfl

/-- A parent chain ends at the start node. -/
theorem chain_last {M : List (Pos × Pos)} {s n : Pos} {l : List Pos}
    (h : Chain M s n l) : l.getLast? = some s := by
  induction h with
  | base _ => rfl
  | @step n' p l' _ hc ih =>
    cases hc with
    | base h0 => exact ih
    | step h1 h2 =>
      rw [← ih]
      rfl

/-- Parent chains are unique (lookup is deterministic). -/
theorem chain_unique {M : List (Pos × Pos)} {s n : Pos} :
    ∀ {l₁ l₂ : List Pos}, Chain M s n l₁ → Chain M s n l₂ → l₁ = l₂ := by
  intro l₁
  induction l₁ generalizing n with
  | nil => intro l₂ h1; cases h1
  | cons a t ih =>
    intro l₂ h1 h2
    cases h1 with
    | base hnone =>
      cases h2 with
      | base _ => rfl
      | step hsome _ => rw [hnone] at hsome; cases hsome
    | step hsome hc =>
      cases h2 with
      | base hnone => rw [hnone] at hsome; cases hsome
      | step hsome2 hc2 =>
        rw [hsome] at hsome2
        cases hsome2
        rw [ih hc hc2]

/-- Every member of a parent chain heads its own (suffix) chain. -/
theorem chain_mem {M : List (Pos × Pos)} {s : Pos} :
    ∀ {n : Pos} {l : List Pos}, Chain M s n l → ∀ x ∈ l,
      ∃ l', Chain M s x l' ∧ l' <:+ l := by
  intro n l h
  induction h with
  | base h0 =>
    intro x hx
    rw [List.mem_singleton] at hx
    subst hx
    exact ⟨[x], Chain.base h0, List.suffix_refl _⟩
  | @step n' p l' hsome hc ih =>
    intro x hx
    rcases List.mem_cons.mp hx with hx | hx
    · subst hx
      exact ⟨x :: l', Chain.step hsome hc, List.suffix_refl _⟩
    · obtain ⟨l'', hch, hsuf⟩ := ih x hx
      exact ⟨l'', hch, hsuf.trans (List.suffix_cons _ _)⟩

/-- Parent chains never repeat a node. -/
theorem chain_nodup {M : List (Pos × Pos)} {s : Pos} :
    ∀ {n : Pos} {l : List Pos}, Chain M s n l → l.Nodup := by
  intro n l h
  induction h with
  | base _ => exact List.nodup_singleton _
  | @step n' p l' hsome hc ih =>
    refine List.nodup_cons.mpr ⟨?_, ih⟩
    intro hmem
    obtain ⟨l'', hch, hsuf⟩ := chain_mem hc n' hmem
    have : l'' = n' :: l' := chain_unique hch (Chain.step hsome hc)
    subst this
    have := List.IsSuffix.length_le hsuf
    simp at this

/-- Every chain node is the start or a key of the parent map. -/
theorem chain_nodes_keyed {M : List (Pos × Pos)} {s : Pos} :
    ∀ {n : Pos} {l : List Pos}, Chain M s n l → ∀ x ∈ l,
      x = s ∨ x ∈ M.map Prod.fst := by
  intro n l h
  induction h with
  | base _ =>
    intro x hx
    rw [List.mem_singleton] at hx
    exact Or.inl hx
  | @step n' p l' hsome hc ih =>
    intro x hx
    rcases List.mem_cons.mp hx with hx | hx
    · subst hx
      exact Or.inr (mapGet_mem_keys hsome)
    · exact ih x hx

/-- Chains are at most one longer than the parent map. -/
theorem chain_length_le {M : List (Pos × Pos)} {s n : Pos} {l : List Pos}
    (h : Chain M s n l) : l.length ≤ M.length + 1 := by
  classical
  have hnd : l.Nodup := chain_nodup h
  have hsub : l.toFinset ⊆ insert s (M.map Prod.fst).toFinset := by
    intro x hx
    rw [List.mem_toFinset] at hx
    rcases chain_nodes_keyed h x hx with hx | hx
    · exact Finset.mem_insert.mpr (Or.inl hx)
    · exact Finset.mem_insert.mpr (Or.inr (List.mem_toFinset.mpr hx))
  have h1 : l.length = l.toFinset.card := (List.toFinset_card_of_nodup hnd).symm
  have h2 : l.toFinset.card ≤ (insert s (M.map Prod.fst).toFinset).card :=
    Finset.card_le_card hsub
  have h3 : (insert s (M.map Prod.fst).toFinset).card
      ≤ (M.map Prod.fst).toFinset.card + 1 := Finset.card_insert_le _ _
  have h4 : (M.map Prod.fst).toFinset.card ≤ (M.map Prod.fst).length :=
    (M.map Prod.fst).toFinset_card_le
  have h5 : (M.map Prod.fst).length = M.length := List.length_map _ _
  omega

/-- `chaseParents` with enough fuel follows the chain exactly. -/
theorem chase_eq_chain {M : List (Pos × Pos)} {s : Pos} :
    ∀ {n : Pos} {l : List Pos}, Chain M s n l → ∀ f, l.length ≤ f + 1 →
      chaseParents M f n = l := by
  intro n l h
  induction h with
  | base h0 =>
    intro f _
    cases f with
    | zero => rfl
    | succ f' =>
      show (match mapGet M s with
        | none => [s]
        | some prev => s :: chaseParents M f' prev) = [s]
      rw [h0]
  | @step n' p l' hsome hc ih =>
    intro f hf
    have hlen : 1 ≤ l'.length := by
      cases hl : l' with
      | nil => rw [hl] at hc; cases chain_head hc
      | cons a t => simp [hl]
    cases f with
    | zero =>
      simp only [List.length_cons] at hf
      omega
    | succ f' =>
      show (match mapGet M n' with
        | none => [n']
        | some prev => n' :: chaseParents M f' prev) = n' :: l'
      rw [hsome]
      show n' :: chaseParents M f' p = n' :: l'
      have : chaseParents M f' p = l' := by
        apply ih
        simp only [List.length_cons] at hf
        omega
      rw [this]

/-- Under relaxed parent edges, every node on a chain has a stored score at
most the score of the chain's head. -/
theorem chain_g_mono (getNb : Pos → List NeighborEntry)
    {M : List (Pos × Pos)} {gS : List (Pos × Option ℚ)} {s : Pos}
    (hpe : ∀ n p, mapGet M n = some p →
      ∃ c gp gn, Edge getNb p n c ∧ 0 ≤ c ∧
        mapGet gS p = some (some gp) ∧
        mapGet gS n = some (some gn) ∧ gp + c ≤ gn) :
    ∀ {m : Pos} {l : List Pos}, Chain M s m l → ∀ x ∈ l,
      ∀ qm, mapGet gS m = some (some qm) →
        ∃ qx, mapGet gS x = some (some qx) ∧ qx ≤ qm := by
  intro m l h
  induction h with
  | base _ =>
    intro x hx qm hq
    rw [List.mem_singleton] at hx
    subst hx
    exact ⟨qm, hq, le_refl _⟩
  | @step n' p l' hsome hc ih =>
    intro x hx qm hq
    rcases List.mem_cons.mp hx with hx | hx
    · subst hx
      exact ⟨qm, hq, le_refl _⟩
    · obtain ⟨c, gp, gn, _, hc0, hgp, hgn, hle⟩ := hpe n' p hsome
      have hgneq : gn = qm := by
        have := hgn.symm.trans hq
        simpa using this
      obtain ⟨qx, hqx, hqxle⟩ := ih x hx gp hgp
      exact ⟨qx, hqx, by linarith⟩

/-- Under relaxed parent edges and a zero start score, the reverse of a
chain is a walk whose cost is at most the stored score of the chain's
head. -/
theorem chain_cost (getNb : Pos → List NeighborEntry)
    {M : List (Pos × Pos)} {gS : List (Pos × Option ℚ)} {s : Pos}
    (hpe : ∀ n p, mapGet M n = some p →
      ∃ c gp gn, Edge getNb p n c ∧ 0 ≤ c ∧
        mapGet gS p = some (some gp) ∧
        mapGet gS n = some (some gn) ∧ gp + c ≤ gn)
    (hg0 : mapGet gS s = some (some 0)) :
    ∀ {n : Pos} {l : List Pos}, Chain M s n l →
      ∀ qn, mapGet gS n = some (some qn) →
        ∃ c, ListWalk getNb l.reverse c ∧ c ≤ qn := by
  intro n l h
  induction h with
  | base _ =>
    intro qn hqn
    have hq0 : (0 : ℚ) = qn := by
      have := hg0.symm.trans hqn
      simpa using this
    exact ⟨0, ListWalk.single s, le_of_eq hq0⟩
  | @step n' p l' hsome hc ih =>
    intro qn hqn
    obtain ⟨ce, gp, gn, hedge, hc0, hgp, hgn, hle⟩ := hpe n' p hsome
    have hgneq : gn = qn := by
      have := hgn.symm.trans hqn
      simpa using this
    obtain ⟨c', hlw, hc'le⟩ := ih gp hgp
    have hlast : l'.reverse.getLast? = some p := by
      rw [List.getLast?_reverse]
      exact chain_head hc
    refine ⟨c' + ce, ?_, by linarith⟩
    have := listWalk_snoc getNb hlw hlast hedge
    simpa using this

/-- A chain avoiding the updated key survives a map update verbatim. -/
theorem chain_preserve_of_not_mem {M : List (Pos × Pos)} {s n₀ cur : Pos} :
    ∀ {m : Pos} {l : List Pos}, Chain M s m l → n₀ ∉ l →
      Chain (mapSet M n₀ cur) s m l := by
  intro m l h
  induction h with
  | base h0 =>
    intro hn
    rw [List.mem_singleton] at hn
    refine Chain.base ?_
    rw [mapGet_set_ne M n₀ s cur (Ne.symm hn)]
    exact h0
  | @step n' p l' hsome hc ih =>
    intro hn
    rw [List.mem_cons] at hn
    push_neg at hn
    refine Chain.step ?_ (ih hn.2)
    rw [mapGet_set_ne M n₀ n' cur (Ne.symm hn.1)]
    exact hsome

/-- After an update, every previously chained node is chained again, given a
chain (in the updated map) for the new parent value. -/
theorem chain_update {M : List (Pos × Pos)} {s n₀ cur : Pos} {lc : List Pos}
    (hns : n₀ ≠ s) (hcur : Chain (mapSet M n₀ cur) s cur lc) :
    ∀ {m : Pos} {l : List Pos}, Chain M s m l →
      ∃ l', Chain (mapSet M n₀ cur) s m l' := by
  intro m l h
  induction h with
  | base h0 =>
    refine ⟨[s], Chain.base ?_⟩
    rw [mapGet_set_ne M n₀ s cur (Ne.symm hns)]
    exact h0
  | @step n' p l' hsome hc ih =>
    by_cases he : n' = n₀
    · subst he
      exact ⟨n' :: lc, Chain.step (mapGet_set_self M n' cur) hcur⟩
    · obtain ⟨l'', h''⟩ := ih
      exact ⟨n' :: l'', Chain.step (by rw [mapGet_set_ne M n₀ n' cur he]; exact hsome) h''⟩

/-- `optLT` is irreflexive. -/
theorem optLT_irrefl (a : Option ℚ) : optLT a a = false := by
  cases a <;> simp [optLT]

/-- `optLT` is transitive. -/
theorem optLT_trans {a b c : Option ℚ} (h1 : optLT a b = true)
    (h2 : optLT b c = true) : optLT a c = true := by
  cases a <;> cases b <;> cases c <;> simp [optLT] at *
  all_goals linarith

/-- `optLT` is asymmetric. -/
theorem optLT_asymm {a b : Option ℚ} (h : optLT a b = true) :
    optLT b a = false := by
  cases a <;> cases b <;> simp [optLT] at *
  all_goals linarith

/-- Indexing with a default hits a member when the index is in range. -/
theorem getD_mem : ∀ {l : List Pos} {i : ℕ}, i < l.length →
    l.getD i ⟨0, 0⟩ ∈ l := by
  intro l
  induction l with
  | nil => intro i h; simp at h
  | cons a t ih =>
    intro i h
    cases i with
    | zero => simp
    | succ j =>
      rw [List.getD_cons_succ]
      exact List.mem_cons_of_mem _ (ih (by simpa using h))

/-- Removing an in-range index from a duplicate-free list: length drops by
one, no duplicates are introduced, and membership is membership in the
original list minus the removed element. -/
theorem eraseIdx_facts : ∀ (l : List Pos) (i : ℕ), i < l.length → l.Nodup →
    (l.eraseIdx i).length = l.length - 1 ∧
    (l.eraseIdx i).Nodup ∧
    (∀ p, p ∈ l.eraseIdx i ↔ (p ∈ l ∧ p ≠ l.getD i ⟨0, 0⟩)) := by
  intro l
  induction l with
  | nil => intro i h; simp at h
  | cons a t ih =>
    intro i hi hnd
    obtain ⟨hat, hndt⟩ := List.nodup_cons.mp hnd
    cases i with
    | zero =>
      refine ⟨by simp, hndt, ?_⟩
      intro p
      simp only [List.eraseIdx, List.getD_cons_zero, List.mem_cons]
      constructor
      · intro hp
        exact ⟨Or.inr hp, fun he => hat (he ▸ hp)⟩
      · rintro ⟨hp | hp, hne⟩
        · exact absurd hp hne
        · exact hp
    | succ j =>
      have hj : j < t.length := by simpa using hi
      obtain ⟨hl, hn, hm⟩ := ih j hj hndt
      refine ⟨?_, ?_, ?_⟩
      · simp only [List.eraseIdx, List.length_cons, hl]
        omega
      · refine List.nodup_cons.mpr ⟨?_, hn⟩
        intro hmem
        exact hat ((hm a).mp hmem).1
      · intro p
        simp only [List.eraseIdx, List.getD_cons_succ, List.mem_cons, hm p]
        constructor
        · rintro (hp | ⟨hp, hne⟩)
          · subst hp
            refine ⟨Or.inl rfl, ?_⟩
            intro he
            exact hat (he ▸ getD_mem hj)
          · exact ⟨Or.inr hp, hne⟩
        · rintro ⟨hp | hp, hne⟩
          · exact Or.inl hp
          · exact Or.inr ⟨hp, hne⟩

/-- The fold inside `getLowestF`: the running best never rises, nothing in
the list beats the final best, and the final index either is the initial one
with the initial best or points (relative to the initial counter) at a list
member realising the final best. -/
theorem fold_lowest (f : Pos → Option ℚ) :
    ∀ (l : List Pos) (i k : ℕ) (b : Option ℚ) (r : ℕ × Option ℚ × ℕ),
      r = l.foldl (fun acc p =>
          if optLT (f p) acc.2.1 then (acc.2.2, f p, acc.2.2 + 1)
          else (acc.1, acc.2.1, acc.2.2 + 1)) (i, b, k) →
      (r.2.1 = b ∨ optLT r.2.1 b = true) ∧
      (∀ p ∈ l, optLT (f p) r.2.1 = false) ∧
      ((r.1 = i ∧ r.2.1 = b) ∨
        (k ≤ r.1 ∧ r.1 < k + l.length ∧ f (l.getD (r.1 - k) ⟨0, 0⟩) = r.2.1)) := by
  intro l
  induction l with
  | nil =>
    intro i k b r hr
    subst hr
    exact ⟨Or.inl rfl, by simp, Or.inl ⟨rfl, rfl⟩⟩
  | cons a t ih =>
    intro i k b r hr
    rw [List.foldl_cons] at hr
    by_cases hcase : optLT (f a) b = true
    · rw [if_pos hcase] at hr
      obtain ⟨h1, h2, h3⟩ := ih k (k + 1) (f a) r hr
      refine ⟨?_, ?_, ?_⟩
      · right
        rcases h1 with h1 | h1
        · rw [h1]; exact hcase
        · exact optLT_trans h1 hcase
      · intro q hq
        rcases List.mem_cons.mp hq with hq | hq
        · subst hq
          rcases h1 with h1 | h1
          · rw [h1]; exact optLT_irrefl _
          · exact optLT_asymm h1
        · exact h2 q hq
      · right
        rcases h3 with ⟨hi', hb'⟩ | ⟨hk1, hlt, hgd⟩
        · refine ⟨le_of_eq hi'.symm, ?_, ?_⟩
          · rw [List.length_cons]; omega
          · rw [hi', Nat.sub_self, List.getD_cons_zero]
            exact hb'.symm
        · refine ⟨by omega, ?_, ?_⟩
          · rw [List.length_cons]; omega
          · have hjj : r.1 - k = (r.1 - (k + 1)) + 1 := by omega
            rw [hjj, List.getD_cons_succ]
            exact hgd
    · rw [if_neg hcase] at hr
      rw [Bool.not_eq_true] at hcase
      obtain ⟨h1, h2, h3⟩ := ih i (k + 1) b r hr
      refine ⟨h1, ?_, ?_⟩
      · intro q hq
        rcases List.mem_cons.mp hq with hq | hq
        · subst hq
          rcases h1 with h1 | h1
          · rw [h1]; exact hcase
          · exact optLT_not_lt h1 hcase
        · exact h2 q hq
      · rcases h3 with h3 | ⟨hk1, hlt, hgd⟩
        · exact Or.inl h3
        · right
          refine ⟨by omega, ?_, ?_⟩
          · rw [List.length_cons]; omega
          · have hjj : r.1 - k = (r.1 - (k + 1)) + 1 := by omega
            rw [hjj, List.getD_cons_succ]
            exact hgd

/-- `getLowestF` returns an in-range index of the open set whose `fScore` no
open node strictly beats. -/
theorem getLowestF_spec (fS : List (Pos × Option ℚ)) (os : List Pos)
    (hne : os ≠ []) :
    getLowestFIdx fS os < os.length ∧
    ∀ p ∈ os, optLT ((mapGet fS p).getD none)
      ((mapGet fS (os.getD (getLowestFIdx fS os) ⟨0, 0⟩)).getD none) = false := by
  have hr : (os.foldl (fun acc p =>
      if optLT ((fun q => (mapGet fS q).getD none) p) acc.2.1
      then (acc.2.2, (fun q => (mapGet fS q).getD none) p, acc.2.2 + 1)
      else (acc.1, acc.2.1, acc.2.2 + 1)) (0, none, 0))
      = os.foldl (fun acc p =>
      if optLT ((fun q => (mapGet fS q).getD none) p) acc.2.1
      then (acc.2.2, (fun q => (mapGet fS q).getD none) p, acc.2.2 + 1)
      else (acc.1, acc.2.1, acc.2.2 + 1)) (0, none, 0) := rfl
  obtain ⟨h1, h2, h3⟩ :=
    fold_lowest (fun q => (mapGet fS q).getD none) os 0 0 none _ hr
  have hidx : getLowestFIdx fS os = (os.foldl (fun acc p =>
      if optLT ((fun q => (mapGet fS q).getD none) p) acc.2.1
      then (acc.2.2, (fun q => (mapGet fS q).getD none) p, acc.2.2 + 1)
      else (acc.1, acc.2.1, acc.2.2 + 1)) (0, none, 0)).1 := rfl
  have hlen : 0 < os.length := List.length_pos.mpr hne
  rcases h3 with ⟨hi, hb⟩ | ⟨_, hlt, hgd⟩
  · rw [hidx, hi]
    refine ⟨hlen, ?_⟩
    have hmem0 : os.getD 0 ⟨0, 0⟩ ∈ os := getD_mem hlen
    have h0 := h2 _ hmem0
    rw [hb] at h0
    have hnone : (mapGet fS (os.getD 0 ⟨0, 0⟩)).getD none = none := by
      cases hv : (mapGet fS (os.getD 0 ⟨0, 0⟩)).getD none with
      | none => rfl
      | some x => rw [hv] at h0; simp [optLT] at h0
    rw [hnone]
    intro p hp
    have := h2 p hp
    rw [hb] at this
    exact this
  · rw [hidx]
    refine ⟨by simpa using hlt, ?_⟩
    rw [Nat.sub_zero] at hgd
    intro p hp
    have := h2 p hp
    rw [← hgd] at this
    exact this

/-- The common denominator of a finite graph is positive. -/
theorem graphDen_pos (getNb : Pos → List NeighborEntry) (V : Finset Pos) :
    0 < graphDen getNb V := by
  unfold graphDen
  apply Finset.prod_pos
  intro p _
  apply List.prod_pos
  intro a ha
  rcases List.mem_map.mp ha with ⟨nb, _, hnb⟩
  rw [← hnb]
  exact Nat.pos_of_ne_zero nb.cost.den_nz

/-- Scaled-to-natural score values order strictly with the rationals. -/
theorem gRank_lt_of {D : ℕ} (hD : 0 < D) {q1 q2 : ℚ} (hlt : q1 < q2)
    {m1 m2 : ℕ} (hm1 : q1 * (D : ℚ) = (m1 : ℚ)) (hm2 : q2 * (D : ℚ) = (m2 : ℚ)) :
    gRank D (some (some q1)) < gRank D (some (some q2)) := by
  have hQ : (m1 : ℚ) < (m2 : ℚ) := by
    rw [← hm1, ← hm2]
    apply mul_lt_mul_of_pos_right hlt
    exact_mod_cast hD
  have hmm : m1 < m2 := by exact_mod_cast hQ
  show (q1 * (D : ℚ)).num.toNat < (q2 * (D : ℚ)).num.toNat
  rw [hm1, hm2, Rat.num_natCast, Rat.num_natCast, Int.toNat_natCast, Int.toNat_natCast]
  exact hmm

/-- Keying a fresh node strictly shrinks the unkeyed count. -/
theorem unkeyedCount_lt_of (V : Finset Pos) (st st' : AState)
    (hmono : ∀ n, mapGet st'.gScore n = none → mapGet st.gScore n = none)
    (x : Pos) (hx : x ∈ V) (hxold : mapGet st.gScore x = none)
    (hxnew : mapGet st'.gScore x ≠ none) :
    unkeyedCount V st' < unkeyedCount V st := by
  unfold unkeyedCount
  have hsub : (V.filter fun n => mapGet st'.gScore n = none)
      ⊆ (V.filter fun n => mapGet st.gScore n = none) := by
    intro n hn
    rw [Finset.mem_filter] at *
    exact ⟨hn.1, hmono n hn.2⟩
  refine Finset.card_lt_card ((Finset.ssubset_iff_of_subset hsub).mpr ⟨x, ?_, ?_⟩)
  · exact Finset.mem_filter.mpr ⟨hx, hxold⟩
  · intro hmem
    exact hxnew (Finset.mem_filter.mp hmem).2

/-- States with the same keyed nodes have the same unkeyed count. -/
theorem unkeyedCount_eq_of (V : Finset Pos) (st st' : AState)
    (hiff : ∀ n, mapGet st'.gScore n = none ↔ mapGet st.gScore n = none) :
    unkeyedCount V st' = unkeyedCount V st := by
  unfold unkeyedCount
  congr 1
  apply Finset.filter_congr
  intro n _
  exact hiff n

/-- A pointwise `≤` with one strict drop shrinks the total rank. -/
theorem gSum_lt_of (V : Finset Pos) (D : ℕ) (st st' : AState)
    (hle : ∀ n ∈ V, gRank D (mapGet st'.gScore n) ≤ gRank D (mapGet st.gScore n))
    (x : Pos) (hx : x ∈ V)
    (hlt : gRank D (mapGet st'.gScore x) < gRank D (mapGet st.gScore x)) :
    gSum V D st' < gSum V D st := by
  unfold gSum
  exact Finset.sum_lt_sum hle ⟨x, hx, hlt⟩

/-- `MLe` composes. -/
theorem MLe_trans {V : Finset Pos} {D : ℕ} {s2 s1 s0 : AState}
    (h21 : MLe V D s2 s1) (h10 : MLe V D s1 s0) : MLe V D s2 s0 := by
  rcases h21 with rfl | h21
  · exact h10
  rcases h10 with rfl | h10
  · exact Or.inr h21
  right
  rcases h21 with h21 | ⟨he21, hg21⟩ <;> rcases h10 with h10 | ⟨he10, hg10⟩
  · exact Or.inl (lt_trans h21 h10)
  · exact Or.inl (by omega)
  · exact Or.inl (by omega)
  · exact Or.inr ⟨by omega, by omega⟩

/-- The loop's decrease relation is well founded. -/
theorem measureRel_wf (V : Finset Pos) (D : ℕ) : WellFounded (measureRel V D) :=
  InvImage.wf _ ((Nat.lt_wfRel.wf).prod_lex ((Nat.lt_wfRel.wf).prod_lex Nat.lt_wfRel.wf))

/-- Popping shortens the open set; relaxing then keeps the prefix of the
measure or shrinks it, so the full lexicographic measure drops. -/
theorem measureRel_of_step {V : Finset Pos} {D : ℕ} {st st2 st3 : AState}
    (hM : MLe V D st3 st2)
    (hu : unkeyedCount V st2 = unkeyedCount V st)
    (hg : gSum V D st2 = gSum V D st)
    (hlen : st2.openSet.length < st.openSet.length) :
    measureRel V D st3 st := by
  unfold measureRel InvImage aMeasure
  rcases hM with rfl | (hM | ⟨he, hlt⟩)
  · rw [hu, hg]
    exact Prod.Lex.right _ (Prod.Lex.right _ hlen)
  · exact Prod.Lex.left _ _ (hu ▸ hM)
  · have h1 : unkeyedCount V st3 = unkeyedCount V st := he.trans hu
    rw [h1]
    exact Prod.Lex.right _ (Prod.Lex.left _ _ (hg ▸ hlt))

/-- The update branch of the neighbour loop (`aStar.ts` lines 80-91): with
the tentative score beating the stored one (or the node fresh), the
rewritten state keeps the relax invariant and strictly shrinks the prefix
of the termination measure. -/
theorem relax_update_spec (getNb : Pos → List NeighborEntry) (h : Pos → Pos → ℚ)
    (start goal : Pos) (V : Finset Pos) (cur : Pos) (qc : ℚ)
    (hs : start ∈ V)
    (hclosed : ∀ p ∈ V, ∀ nb ∈ getNb p, nb.pos ∈ V)
    (hcost : ∀ p ∈ V, ∀ nb ∈ getNb p, 0 ≤ nb.cost)
    (st : AState) (hinv : RelaxInv getNb h start goal V cur qc st)
    (nb : NeighborEntry) (hnb : nb ∈ getNb cur)
    (hold : mapGet st.gScore nb.pos = none ∨
      ∃ qex, mapGet st.gScore nb.pos = some (some qex) ∧ qc + nb.cost < qex) :
    RelaxInv getNb h start goal V cur qc
      ⟨if st.openSet.any fun p => p = nb.pos then st.openSet
        else st.openSet ++ [nb.pos],
       mapSet st.cameFrom nb.pos cur,
       mapSet st.gScore nb.pos (some (qc + nb.cost)),
       mapSet st.fScore nb.pos (some (qc + nb.cost + h nb.pos goal))⟩ ∧
    MLe V (graphDen getNb V)
      ⟨if st.openSet.any fun p => p = nb.pos then st.openSet
        else st.openSet ++ [nb.pos],
       mapSet st.cameFrom nb.pos cur,
       mapSet st.gScore nb.pos (some (qc + nb.cost)),
       mapSet st.fScore nb.pos (some (qc + nb.cost + h nb.pos goal))⟩ st := by
  have hcostnb : 0 ≤ nb.cost := hcost cur hinv.curV nb hnb
  have hedge : Edge getNb cur nb.pos nb.cost := hnb
  obtain ⟨q₀, hq₀, hwcur⟩ := hinv.greal cur _ hinv.gcur
  rw [Option.some.injEq] at hq₀
  subst hq₀
  have hqc0 : 0 ≤ qc := (walk_facts getNb V hclosed hcost start hs hwcur).2.1
  have hnbV : nb.pos ∈ V := hclosed cur hinv.curV nb hnb
  have hnecur : nb.pos ≠ cur := by
    intro he
    rcases hold with h0 | ⟨qex, hg, hlt⟩
    · rw [he, hinv.gcur] at h0; cases h0
    · rw [he, hinv.gcur] at hg
      have : qc = qex := by simpa using hg
      linarith
  have hnestart : nb.pos ≠ start := by
    intro he
    rcases hold with h0 | ⟨qex, hg, hlt⟩
    · rw [he, hinv.gstart] at h0; cases h0
    · rw [he, hinv.gstart] at hg
      have : (0 : ℚ) = qex := by simpa using hg
      linarith
  obtain ⟨lc, hlc⟩ := hinv.chains cur _ hinv.gcur
  have hnotmem : nb.pos ∉ lc := by
    intro hm
    obtain ⟨qx, hqx, hqxle⟩ :=
      chain_g_mono getNb hinv.parentEdge hlc nb.pos hm qc hinv.gcur
    rcases hold with h0 | ⟨qex, hg, hlt⟩
    · rw [h0] at hqx; cases hqx
    · rw [hg] at hqx
      have : qex = qx := by simpa using hqx
      linarith
  have hlcnew : Chain (mapSet st.cameFrom nb.pos cur) start cur lc :=
    chain_preserve_of_not_mem hlc hnotmem
  have hwnew : Walk getNb start nb.pos (qc + nb.cost) := Walk.snoc hwcur hedge
  have hsubopen : ∀ p ∈ st.openSet,
      p ∈ (if st.openSet.any fun p => p = nb.pos then st.openSet
        else st.openSet ++ [nb.pos]) := by
    split_ifs with hany
    · exact fun p hp => hp
    · exact fun p hp => List.mem_append_left _ hp
  have hnbopen : nb.pos ∈ (if st.openSet.any fun p => p = nb.pos then st.openSet
      else st.openSet ++ [nb.pos]) := by
    split_ifs with hany
    · obtain ⟨p, hp, hpe⟩ := List.any_eq_true.mp hany
      have hpp : p = nb.pos := of_decide_eq_true hpe
      exact hpp ▸ hp
    · exact List.mem_append_right _ (List.mem_singleton_self _)
  have hopento : ∀ p ∈ (if st.openSet.any fun p => p = nb.pos then st.openSet
      else st.openSet ++ [nb.pos]), p ∈ st.openSet ∨ p = nb.pos := by
    split_ifs with hany
    · exact fun p hp => Or.inl hp
    · intro p hp
      rcases List.mem_append.mp hp with hp | hp
      · exact Or.inl hp
      · exact Or.inr (List.mem_singleton.mp hp)
  have hnodup : (if st.openSet.any fun p => p = nb.pos then st.openSet
      else st.openSet ++ [nb.pos]).Nodup := by
    split_ifs with hany
    · exact hinv.openNodup
    · refine List.Nodup.append hinv.openNodup (List.nodup_singleton _) ?_
      intro p hp hp1
      rw [List.mem_singleton] at hp1
      subst hp1
      have : st.openSet.any (fun p => p = nb.pos) = true :=
        List.any_eq_true.mpr ⟨nb.pos, hp, by simp⟩
      exact absurd this (by simpa using hany)
  constructor
  · refine
      { gstart := ?_, cfstart := ?_, greal := ?_, openKeyed := ?_, fconsist := ?_,
        parentEdge := ?_, chains := ?_, inV := ?_, goalOpen := ?_, settled := ?_,
        openNodup := hnodup, gcur := ?_, curNotOpen := ?_, curV := hinv.curV }
    · show mapGet (mapSet st.gScore nb.pos (some (qc + nb.cost))) start = some (some 0)
      rw [mapGet_set_ne st.gScore nb.pos start _ (Ne.symm hnestart)]
      exact hinv.gstart
    · show mapGet (mapSet st.cameFrom nb.pos cur) start = none
      rw [mapGet_set_ne st.cameFrom nb.pos start cur (Ne.symm hnestart)]
      exact hinv.cfstart
    · intro n v hv
      by_cases hne : n = nb.pos
      · subst hne
        rw [show mapGet (mapSet st.gScore nb.pos (some (qc + nb.cost))) nb.pos
            = some (some (qc + nb.cost)) from mapGet_set_self _ _ _] at hv
        exact ⟨qc + nb.cost, by simpa using hv.symm, hwnew⟩
      · rw [show mapGet (mapSet st.gScore nb.pos (some (qc + nb.cost))) n
            = mapGet st.gScore n from mapGet_set_ne _ _ _ _ hne] at hv
        exact hinv.greal n v hv
    · intro p hp
      by_cases hne : p = nb.pos
      · subst hne
        exact ⟨some (qc + nb.cost), mapGet_set_self _ _ _⟩
      · rcases hopento p hp with hp' | hp'
        · obtain ⟨v, hv⟩ := hinv.openKeyed p hp'
          refine ⟨v, ?_⟩
          show mapGet (mapSet st.gScore nb.pos (some (qc + nb.cost))) p = some v
          rw [mapGet_set_ne st.gScore nb.pos p _ hne]
          exact hv
        · exact absurd hp' hne
    · intro n q hq
      by_cases hne : n = nb.pos
      · subst hne
        rw [show mapGet (mapSet st.gScore nb.pos (some (qc + nb.cost))) nb.pos
            = some (some (qc + nb.cost)) from mapGet_set_self _ _ _] at hq
        have hq' : qc + nb.cost = q := by simpa using hq
        show mapGet (mapSet st.fScore nb.pos (some (qc + nb.cost + h nb.pos goal))) nb.pos
          = some (some (q + h nb.pos goal))
        rw [mapGet_set_self, ← hq']
      · rw [show mapGet (mapSet st.gScore nb.pos (some (qc + nb.cost))) n
            = mapGet st.gScore n from mapGet_set_ne _ _ _ _ hne] at hq
        show mapGet (mapSet st.fScore nb.pos (some (qc + nb.cost + h nb.pos goal))) n
          = some (some (q + h n goal))
        rw [mapGet_set_ne st.fScore nb.pos n _ hne]
        exact hinv.fconsist n q hq
    · intro n p hp
      by_cases hne : n = nb.pos
      · subst hne
        rw [show mapGet (mapSet st.cameFrom nb.pos cur) nb.pos = some cur
            from mapGet_set_self _ _ _] at hp
        have hpc : cur = p := by simpa using hp
        subst hpc
        refine ⟨nb.cost, qc, qc + nb.cost, hedge, hcostnb, ?_, mapGet_set_self _ _ _,
          le_refl _⟩
        show mapGet (mapSet st.gScore nb.pos (some (qc + nb.cost))) cur = some (some qc)
        rw [mapGet_set_ne st.gScore nb.pos cur _ (Ne.symm hnecur)]
        exact hinv.gcur
      · rw [show mapGet (mapSet st.cameFrom nb.pos cur) n = mapGet st.cameFrom n
            from mapGet_set_ne _ _ _ _ hne] at hp
        obtain ⟨c, gp, gn, he, hc0, hgp, hgn, hle⟩ := hinv.parentEdge n p hp
        by_cases hpe : p = nb.pos
        · subst hpe
          rcases hold with h0 | ⟨qex, hg, hlt⟩
          · rw [h0] at hgp; cases hgp
          · have hgpq : qex = gp := by rw [hg] at hgp; simpa using hgp
            refine ⟨c, qc + nb.cost, gn, he, hc0, mapGet_set_self _ _ _, ?_, ?_⟩
            · show mapGet (mapSet st.gScore nb.pos (some (qc + nb.cost))) n = some (some gn)
              rw [mapGet_set_ne st.gScore nb.pos n _ hne]
              exact hgn
            · linarith
        · refine ⟨c, gp, gn, he, hc0, ?_, ?_, hle⟩
          · show mapGet (mapSet st.gScore nb.pos (some (qc + nb.cost))) p = some (some gp)
            rw [mapGet_set_ne st.gScore nb.pos p _ hpe]
            exact hgp
          · show mapGet (mapSet st.gScore nb.pos (some (qc + nb.cost))) n = some (some gn)
            rw [mapGet_set_ne st.gScore nb.pos n _ hne]
            exact hgn
    · intro n v hv
      by_cases hne : n = nb.pos
      · subst hne
        exact ⟨nb.pos :: lc, Chain.step (mapGet_set_self _ _ _) hlcnew⟩
      · rw [show mapGet (mapSet st.gScore nb.pos (some (qc + nb.cost))) n
            = mapGet st.gScore n from mapGet_set_ne _ _ _ _ hne] at hv
        obtain ⟨l, hl⟩ := hinv.chains n v hv
        exact chain_update hnestart hlcnew hl
    · intro n v hv
      by_cases hne : n = nb.pos
      · subst hne
        exact hnbV
      · rw [show mapGet (mapSet st.gScore nb.pos (some (qc + nb.cost))) n
            = mapGet st.gScore n from mapGet_set_ne _ _ _ _ hne] at hv
        exact hinv.inV n v hv
    · intro v hv
      by_cases hne : goal = nb.pos
      · exact hne ▸ hnbopen
      · rw [show mapGet (mapSet st.gScore nb.pos (some (qc + nb.cost))) goal
            = mapGet st.gScore goal from mapGet_set_ne _ _ _ _ hne] at hv
        exact hsubopen goal (hinv.goalOpen v hv)
    · intro n q hq hnop hncur nb' hnb'
      have hne : n ≠ nb.pos := fun he => hnop (he ▸ hnbopen)
      rw [show mapGet (mapSet st.gScore nb.pos (some (qc + nb.cost))) n
          = mapGet st.gScore n from mapGet_set_ne _ _ _ _ hne] at hq
      have hnop' : n ∉ st.openSet := fun hc => hnop (hsubopen n hc)
      obtain ⟨q', hq', hle'⟩ := hinv.settled n q hq hnop' hncur nb' hnb'
      by_cases hpe : nb'.pos = nb.pos
      · rcases hold with h0 | ⟨qex, hg, hlt⟩
        · rw [hpe, h0] at hq'; cases hq'
        · have hq'ex : qex = q' := by rw [hpe, hg] at hq'; simpa using hq'
          refine ⟨qc + nb.cost, ?_, ?_⟩
          · rw [hpe]
            exact mapGet_set_self _ _ _
          · linarith
      · refine ⟨q', ?_, hle'⟩
        show mapGet (mapSet st.gScore nb.pos (some (qc + nb.cost))) nb'.pos
          = some (some q')
        rw [mapGet_set_ne st.gScore nb.pos nb'.pos _ hpe]
        exact hq'
    · show mapGet (mapSet st.gScore nb.pos (some (qc + nb.cost))) cur = some (some qc)
      rw [mapGet_set_ne st.gScore nb.pos cur _ (Ne.symm hnecur)]
      exact hinv.gcur
    · intro hc
      rcases hopento cur hc with hc | hc
      · exact hinv.curNotOpen hc
      · exact hnecur hc.symm
  · rcases hold with h0 | ⟨qex, hg, hlt⟩
    · right; left
      refine unkeyedCount_lt_of V st _ ?_ nb.pos hnbV h0 ?_
      · intro n hn
        by_cases hne : n = nb.pos
        · subst hne
          rw [show mapGet (mapSet st.gScore nb.pos (some (qc + nb.cost))) nb.pos
              = some (some (qc + nb.cost)) from mapGet_set_self _ _ _] at hn
          cases hn
        · rw [show mapGet (mapSet st.gScore nb.pos (some (qc + nb.cost))) n
              = mapGet st.gScore n from mapGet_set_ne _ _ _ _ hne] at hn
          exact hn
      · show mapGet (mapSet st.gScore nb.pos (some (qc + nb.cost))) nb.pos ≠ none
        rw [mapGet_set_self]
        simp
    · right; right
      obtain ⟨q₁, hq₁, hwex⟩ := hinv.greal nb.pos _ hg
      rw [Option.some.injEq] at hq₁
      subst hq₁
      have hDpos := graphDen_pos getNb V
      obtain ⟨-, -, m2, hm2⟩ := walk_facts getNb V hclosed hcost start hs hwex
      obtain ⟨-, -, m1, hm1⟩ := walk_facts getNb V hclosed hcost start hs hwnew
      constructor
      · refine unkeyedCount_eq_of V st _ ?_
        intro n
        by_cases hne : n = nb.pos
        · subst hne
          rw [show mapGet (mapSet st.gScore nb.pos (some (qc + nb.cost))) nb.pos
              = some (some (qc + nb.cost)) from mapGet_set_self _ _ _, hg]
          simp
        · rw [show mapGet (mapSet st.gScore nb.pos (some (qc + nb.cost))) n
              = mapGet st.gScore n from mapGet_set_ne _ _ _ _ hne]
      · refine gSum_lt_of V _ st _ ?_ nb.pos hnbV ?_
        · intro n _
          by_cases hne : n = nb.pos
          · subst hne
            rw [show mapGet (mapSet st.gScore nb.pos (some (qc + nb.cost))) nb.pos
                = some (some (qc + nb.cost)) from mapGet_set_self _ _ _, hg]
            exact le_of_lt (gRank_lt_of hDpos hlt hm1 hm2)
          · rw [show mapGet (mapSet st.gScore nb.pos (some (qc + nb.cost))) n
                = mapGet st.gScore n from mapGet_set_ne _ _ _ _ hne]
        · rw [show mapGet (mapSet st.gScore nb.pos (some (qc + nb.cost))) nb.pos
              = some (some (qc + nb.cost)) from mapGet_set_self _ _ _, hg]
          exact gRank_lt_of hDpos hlt hm1 hm2

/-- One pass of the neighbour-loop body (`relaxOne`) keeps the relax
invariant, leaves the processed neighbour relaxed, never raises a stored
score, never drops an open node, and never grows the measure prefix. -/
theorem relaxOne_spec (getNb : Pos → List NeighborEntry) (h : Pos → Pos → ℚ)
    (start goal : Pos) (V : Finset Pos) (cur : Pos) (qc : ℚ)
    (hs : start ∈ V)
    (hclosed : ∀ p ∈ V, ∀ nb ∈ getNb p, nb.pos ∈ V)
    (hcost : ∀ p ∈ V, ∀ nb ∈ getNb p, 0 ≤ nb.cost)
    (st : AState) (hinv : RelaxInv getNb h start goal V cur qc st)
    (nb : NeighborEntry) (hnb : nb ∈ getNb cur) :
    RelaxInv getNb h start goal V cur qc (relaxOne h goal cur st nb) ∧
    (∃ q', mapGet (relaxOne h goal cur st nb).gScore nb.pos = some (some q') ∧
      q' ≤ qc + nb.cost) ∧
    (∀ n q, mapGet st.gScore n = some (some q) →
      ∃ q2, mapGet (relaxOne h goal cur st nb).gScore n = some (some q2) ∧ q2 ≤ q) ∧
    (∀ p ∈ st.openSet, p ∈ (relaxOne h goal cur st nb).openSet) ∧
    MLe V (graphDen getNb V) (relaxOne h goal cur st nb) st := by
  rcases hgnb : mapGet st.gScore nb.pos with _ | eg
  · -- fresh node: always update
    have hrel : relaxOne h goal cur st nb =
        ⟨if st.openSet.any fun p => p = nb.pos then st.openSet
          else st.openSet ++ [nb.pos],
         mapSet st.cameFrom nb.pos cur,
         mapSet st.gScore nb.pos (some (qc + nb.cost)),
         mapSet st.fScore nb.pos (some (qc + nb.cost + h nb.pos goal))⟩ := by
      unfold relaxOne
      rw [hinv.gcur, hgnb]
      rfl
    have hspec := relax_update_spec getNb h start goal V cur qc hs hclosed hcost
      st hinv nb hnb (Or.inl hgnb)
    rw [hrel]
    refine ⟨hspec.1, ⟨qc + nb.cost, mapGet_set_self _ _ _, le_refl _⟩, ?_, ?_, hspec.2⟩
    · intro n q hq
      by_cases hne : n = nb.pos
      · subst hne
        rw [hgnb] at hq
        cases hq
      · refine ⟨q, ?_, le_refl q⟩
        show mapGet (mapSet st.gScore nb.pos (some (qc + nb.cost))) n = some (some q)
        rw [mapGet_set_ne st.gScore nb.pos n _ hne]
        exact hq
    · intro p hp
      show p ∈ (if st.openSet.any fun p => p = nb.pos then st.openSet
        else st.openSet ++ [nb.pos])
      split_ifs
      · exact hp
      · exact List.mem_append_left _ hp
  · obtain ⟨qex, hqeg, hwex⟩ := hinv.greal nb.pos _ hgnb
    subst hqeg
    by_cases hlt : qc + nb.cost < qex
    · -- strictly better: update
      have hrel : relaxOne h goal cur st nb =
          ⟨if st.openSet.any fun p => p = nb.pos then st.openSet
            else st.openSet ++ [nb.pos],
           mapSet st.cameFrom nb.pos cur,
           mapSet st.gScore nb.pos (some (qc + nb.cost)),
           mapSet st.fScore nb.pos (some (qc + nb.cost + h nb.pos goal))⟩ := by
        unfold relaxOne
        rw [hinv.gcur, hgnb]
        dsimp only [Option.getD, optAdd, optLT]
        rw [decide_eq_true hlt]
        rfl
      have hspec := relax_update_spec getNb h start goal V cur qc hs hclosed hcost
        st hinv nb hnb (Or.inr ⟨qex, hgnb, hlt⟩)
      rw [hrel]
      refine ⟨hspec.1, ⟨qc + nb.cost, mapGet_set_self _ _ _, le_refl _⟩, ?_, ?_, hspec.2⟩
      · intro n q hq
        by_cases hne : n = nb.pos
        · subst hne
          have hqq : qex = q := by rw [hgnb] at hq; simpa using hq
          refine ⟨qc + nb.cost, mapGet_set_self _ _ _, by linarith⟩
        · refine ⟨q, ?_, le_refl q⟩
          show mapGet (mapSet st.gScore nb.pos (some (qc + nb.cost))) n = some (some q)
          rw [mapGet_set_ne st.gScore nb.pos n _ hne]
          exact hq
      · intro p hp
        show p ∈ (if st.openSet.any fun p => p = nb.pos then st.openSet
          else st.openSet ++ [nb.pos])
        split_ifs
        · exact hp
        · exact List.mem_append_left _ hp
    · -- not better: the state is returned untouched
      have hrel : relaxOne h goal cur st nb = st := by
        unfold relaxOne
        rw [hinv.gcur, hgnb]
        dsimp only [Option.getD, optAdd, optLT]
        rw [decide_eq_false hlt]
        rfl
      rw [hrel]
      exact ⟨hinv, ⟨qex, hgnb, not_lt.mp hlt⟩, fun n q hq => ⟨q, hq, le_refl q⟩,
        fun p hp => hp, Or.inl rfl⟩

/-- Folding `relaxOne` over a neighbour list keeps the relax invariant,
relaxes every listed neighbour, never raises scores, keeps open nodes open,
and never grows the measure prefix. -/
theorem relaxFold_spec (getNb : Pos → List NeighborEntry) (h : Pos → Pos → ℚ)
    (start goal : Pos) (V : Finset Pos) (cur : Pos) (qc : ℚ)
    (hs : start ∈ V)
    (hclosed : ∀ p ∈ V, ∀ nb ∈ getNb p, nb.pos ∈ V)
    (hcost : ∀ p ∈ V, ∀ nb ∈ getNb p, 0 ≤ nb.cost) :
    ∀ (nbs : List NeighborEntry), (∀ x ∈ nbs, x ∈ getNb cur) →
      ∀ st, RelaxInv getNb h start goal V cur qc st →
      RelaxInv getNb h start goal V cur qc (nbs.foldl (relaxOne h goal cur) st) ∧
      (∀ x ∈ nbs, ∃ q', mapGet (nbs.foldl (relaxOne h goal cur) st).gScore x.pos
        = some (some q') ∧ q' ≤ qc + x.cost) ∧
      (∀ n q, mapGet st.gScore n = some (some q) →
        ∃ q2, mapGet (nbs.foldl (relaxOne h goal cur) st).gScore n
          = some (some q2) ∧ q2 ≤ q) ∧
      (∀ p ∈ st.openSet, p ∈ (nbs.foldl (relaxOne h goal cur) st).openSet) ∧
      MLe V (graphDen getNb V) (nbs.foldl (relaxOne h goal cur) st) st := by
  intro nbs
  induction nbs with
  | nil =>
    intro _ st hinv
    exact ⟨hinv, by simp, fun n q hq => ⟨q, hq, le_refl q⟩, fun p hp => hp, Or.inl rfl⟩
  | cons x t ih =>
    intro hsub st hinv
    have hx : x ∈ getNb cur := hsub x (List.mem_cons_self x t)
    obtain ⟨hinv1, hrel1, hdec1, hop1, hM1⟩ :=
      relaxOne_spec getNb h start goal V cur qc hs hclosed hcost st hinv x hx
    obtain ⟨hinv2, hrel2, hdec2, hop2, hM2⟩ :=
      ih (fun y hy => hsub y (List.mem_cons_of_mem x hy)) (relaxOne h goal cur st x)
        hinv1
    rw [List.foldl_cons]
    refine ⟨hinv2, ?_, ?_, ?_, MLe_trans hM2 hM1⟩
    · intro y hy
      rcases List.mem_cons.mp hy with hy | hy
      · subst hy
        obtain ⟨q', hq', hle'⟩ := hrel1
        obtain ⟨q2, hq2, hle2⟩ := hdec2 y.pos q' hq'
        exact ⟨q2, hq2, le_trans hle2 hle'⟩
      · exact hrel2 y hy
    · intro n q hq
      obtain ⟨q1, hq1, hle1⟩ := hdec1 n q hq
      obtain ⟨q2, hq2, hle2⟩ := hdec2 n q1 hq1
      exact ⟨q2, hq2, le_trans hle2 hle1⟩
    · intro p hp
      exact hop2 p (hop1 p hp)

/-- Once every neighbour of the popped node is relaxed, the relax invariant
gives back the full loop invariant. -/
theorem relax_done_inv (getNb : Pos → List NeighborEntry) (h : Pos → Pos → ℚ)
    (start goal : Pos) (V : Finset Pos) (cur : Pos) (qc : ℚ) (st : AState)
    (hinv : RelaxInv getNb h start goal V cur qc st)
    (hrel : ∀ x ∈ getNb cur, ∃ q', mapGet st.gScore x.pos = some (some q') ∧
      q' ≤ qc + x.cost) :
    AStarInv getNb h start goal V st := by
  refine ⟨hinv.gstart, hinv.cfstart, hinv.greal, hinv.openKeyed, hinv.fconsist,
    hinv.parentEdge, hinv.chains, hinv.inV, hinv.goalOpen, ?_, hinv.openNodup⟩
  intro n q hq hnop nb' hnb'
  by_cases hne : n = cur
  · subst hne
    have hqqc : qc = q := by rw [hinv.gcur] at hq; simpa using hq
    obtain ⟨q', hq', hle'⟩ := hrel nb' hnb'
    exact ⟨q', hq', by linarith⟩
  · exact hinv.settled n q hq hnop hne nb' hnb'

/-- Popping a non-goal node of lowest `fScore` off the open set yields the
relax invariant for the remaining state. -/
theorem pop_relaxinv (getNb : Pos → List NeighborEntry) (h : Pos → Pos → ℚ)
    (start goal : Pos) (V : Finset Pos) (st : AState)
    (hinv : AStarInv getNb h start goal V st)
    (idx : ℕ) (hidx : idx < st.openSet.length)
    (hgne : st.openSet.getD idx ⟨0, 0⟩ ≠ goal) :
    ∃ qc, mapGet st.gScore (st.openSet.getD idx ⟨0, 0⟩) = some (some qc) ∧
      RelaxInv getNb h start goal V (st.openSet.getD idx ⟨0, 0⟩) qc
        { st with openSet := st.openSet.eraseIdx idx } := by
  have hcuro : st.openSet.getD idx ⟨0, 0⟩ ∈ st.openSet := getD_mem hidx
  obtain ⟨v, hv⟩ := hinv.openKeyed _ hcuro
  obtain ⟨qc, hqc, hwc⟩ := hinv.greal _ v hv
  subst hqc
  obtain ⟨hlen, hnd, hmem⟩ := eraseIdx_facts st.openSet idx hidx hinv.openNodup
  refine ⟨qc, hv, ?_⟩
  refine
    { gstart := hinv.gstart, cfstart := hinv.cfstart, greal := hinv.greal,
      openKeyed := ?_, fconsist := hinv.fconsist, parentEdge := hinv.parentEdge,
      chains := hinv.chains, inV := hinv.inV, goalOpen := ?_, settled := ?_,
      openNodup := hnd, gcur := hv, curNotOpen := ?_,
      curV := hinv.inV _ _ hv }
  · intro p hp
    exact hinv.openKeyed p ((hmem p).mp hp).1
  · intro v' hv'
    exact (hmem goal).mpr ⟨hinv.goalOpen v' hv', Ne.symm hgne⟩
  · intro n q hq hnop hncur nb' hnb'
    have hnop' : n ∉ st.openSet := by
      intro hn
      exact hnop ((hmem n).mpr ⟨hn, hncur⟩)
    exact hinv.settledRelaxed n q hq hnop' nb' hnb'
  · intro hc
    exact ((hmem _).mp hc).2 rfl

/-- A loop step on an empty open set returns `null` ("no path"). -/
theorem aStarLoop_nil (getNb : Pos → List NeighborEntry) (h : Pos → Pos → ℚ)
    (goal : Pos) (fuel : ℕ) (st : AState) (hos : st.openSet = []) :
    aStarLoop getNb h goal (fuel + 1) st = some none := by
  obtain ⟨os, cf, gs, fs⟩ := st
  dsimp only at hos
  subst hos
  rfl

/-- A loop step on a non-empty open set pops the lowest-`fScore` node and
either reconstructs (goal found) or relaxes its neighbours and loops. -/
theorem aStarLoop_cons (getNb : Pos → List NeighborEntry) (h : Pos → Pos → ℚ)
    (goal : Pos) (fuel : ℕ) (st : AState) (a : Pos) (t : List Pos)
    (hos : st.openSet = a :: t) :
    aStarLoop getNb h goal (fuel + 1) st =
      if st.openSet.getD (getLowestFIdx st.fScore st.openSet) ⟨0, 0⟩ = goal
      then some (some (reconstructPath st.cameFrom
        (st.openSet.getD (getLowestFIdx st.fScore st.openSet) ⟨0, 0⟩)))
      else aStarLoop getNb h goal fuel
        ((getNb (st.openSet.getD (getLowestFIdx st.fScore st.openSet) ⟨0, 0⟩)).foldl
          (relaxOne h goal (st.openSet.getD (getLowestFIdx st.fScore st.openSet) ⟨0, 0⟩))
          { st with openSet := st.openSet.eraseIdx (getLowestFIdx st.fScore st.openSet) }) := by
  obtain ⟨os, cf, gs, fs⟩ := st
  dsimp only at hos ⊢
  subst hos
  rfl

/-- Lemma A (the frontier lemma): along any walk from the start, either some
open node's score already undercuts a prefix of the walk (with the rest of
the walk still ahead of it), or the walk's endpoint is settled at a score no
worse than the walk. -/
theorem lemmaA (getNb : Pos → List NeighborEntry) (h : Pos → Pos → ℚ)
    (start goal : Pos) (V : Finset Pos) (st : AState)
    (hinv : AStarInv getNb h start goal V st) :
    ∀ {z : Pos} {c : ℚ}, Walk getNb start z c →
      (∃ y qy d2, y ∈ st.openSet ∧ mapGet st.gScore y = some (some qy) ∧
        Walk getNb y z d2 ∧ qy + d2 ≤ c) ∨
      (∃ qz, mapGet st.gScore z = some (some qz) ∧ qz ≤ c ∧ z ∉ st.openSet) := by
  intro z c hw
  induction hw with
  | nil =>
    by_cases ho : start ∈ st.openSet
    · exact Or.inl ⟨start, 0, 0, ho, hinv.gstart, Walk.nil start, by norm_num⟩
    · exact Or.inr ⟨0, hinv.gstart, le_refl 0, ho⟩
  | @snoc v w c' ce hw' hedge ih =>
    rcases ih with ⟨y, qy, d2, hyo, hyg, hyw, hyle⟩ | ⟨qv, hvg, hvle, hvno⟩
    · exact Or.inl ⟨y, qy, d2 + ce, hyo, hyg, Walk.snoc hyw hedge, by linarith⟩
    · obtain ⟨q', hq', hle'⟩ :=
        hinv.settledRelaxed v qv hvg hvno ⟨w, ce⟩ hedge
      by_cases hwo : w ∈ st.openSet
      · exact Or.inl ⟨w, q', 0, hwo, hq', Walk.nil w, by linarith⟩
      · exact Or.inr ⟨q', hq', by linarith, hwo⟩

/-- From any state satisfying the loop invariant, the `aStar` loop reaches a
definitive answer with enough fuel (and every larger fuel): a returned path
is a valid start-goal path of cost at most every start-goal walk, and `null`
is returned only when no start-goal walk exists. -/
theorem loop_correct (getNb : Pos → List NeighborEntry) (h : Pos → Pos → ℚ)
    (start goal : Pos) (V : Finset Pos)
    (hs : start ∈ V)
    (hclosed : ∀ p ∈ V, ∀ nb ∈ getNb p, nb.pos ∈ V)
    (hcost : ∀ p ∈ V, ∀ nb ∈ getNb p, 0 ≤ nb.cost)
    (hadm : ∀ u d, Walk getNb u goal d → h u goal ≤ d)
    (hnn : ∀ u, 0 ≤ h u goal) :
    ∀ st, AStarInv getNb h start goal V st →
      ∃ N r, (∀ k, aStarLoop getNb h goal (N + k) st = some r) ∧
        (∀ P, r = some P → ∃ c, IsPathList getNb start goal P c ∧
          ∀ c', Walk getNb start goal c' → c ≤ c') ∧
        (r = none → ∀ c, ¬ Walk getNb start goal c) := by
  intro st
  refine @WellFounded.induction AState (measureRel V (graphDen getNb V))
    (measureRel_wf V (graphDen getNb V))
    (fun s => AStarInv getNb h start goal V s →
      ∃ N r, (∀ k, aStarLoop getNb h goal (N + k) s = some r) ∧
        (∀ P, r = some P → ∃ c, IsPathList getNb start goal P c ∧
          ∀ c', Walk getNb start goal c' → c ≤ c') ∧
        (r = none → ∀ c, ¬ Walk getNb start goal c))
    st ?_
  intro s IH hinv
  rcases hos : s.openSet with _ | ⟨a, t⟩
  · -- open set exhausted: "no path"
    refine ⟨1, none, ?_, ?_, ?_⟩
    · intro k
      rw [show 1 + k = k + 1 by omega]
      exact aStarLoop_nil getNb h goal k s hos
    · intro P hP
      cases hP
    · intro _ c hw
      rcases lemmaA getNb h start goal V s hinv hw with
        ⟨y, qy, d2, hyo, _, _, _⟩ | ⟨qz, hzg, _, _⟩
      · rw [hos] at hyo
        cases hyo
      · have := hinv.goalOpen _ hzg
        rw [hos] at this
        cases this
  · have hne : s.openSet ≠ [] := by rw [hos]; simp
    obtain ⟨hidx, hmin⟩ := getLowestF_spec s.fScore s.openSet hne
    by_cases hcg : s.openSet.getD (getLowestFIdx s.fScore s.openSet) ⟨0, 0⟩ = goal
    · -- the goal is popped: reconstruct and stop
      have hcuro : s.openSet.getD (getLowestFIdx s.fScore s.openSet) ⟨0, 0⟩
          ∈ s.openSet := getD_mem hidx
      obtain ⟨v, hv⟩ := hinv.openKeyed _ hcuro
      obtain ⟨qg, hqg, hwg⟩ := hinv.greal _ v hv
      subst hqg
      rw [hcg] at hv
      have hopt : ∀ c, Walk getNb start goal c → qg ≤ c := by
        intro c hw
        rcases lemmaA getNb h start goal V s hinv hw with
          ⟨y, qy, d2, hyo, hyg, hyw, hyle⟩ | ⟨qz, hzg, hzle, hzno⟩
        · have hfy := hinv.fconsist y qy hyg
          have hfc := hinv.fconsist goal qg hv
          have hm := hmin y hyo
          rw [hcg, hfy, hfc] at hm
          simp only [Option.getD_some] at hm
          have hmle : qg + h goal goal ≤ qy + h y goal := by
            have := of_decide_eq_false hm
            exact not_lt.mp this
          have hy_adm : h y goal ≤ d2 := hadm y d2 hyw
          have hgg : 0 ≤ h goal goal := hnn goal
          linarith
        · exact absurd (hinv.goalOpen _ hzg) hzno
      obtain ⟨l, hl⟩ := hinv.chains _ _ hv
      have hlen_le := chain_length_le hl
      have hchase : chaseParents s.cameFrom (s.cameFrom.length + 1) goal = l :=
        chase_eq_chain hl _ (by omega)
      obtain ⟨cp, hcp_lw, hcp_le⟩ :=
        chain_cost getNb hinv.parentEdge hinv.gstart hl qg hv
      refine ⟨1, some (reconstructPath s.cameFrom goal), ?_, ?_, ?_⟩
      · intro k
        rw [show 1 + k = k + 1 by omega,
          aStarLoop_cons getNb h goal k s a t hos, if_pos hcg, hcg]
      · intro P hP
        rw [Option.some.injEq] at hP
        subst hP
        refine ⟨cp, ⟨?_, ?_, ?_⟩, ?_⟩
        · show ListWalk getNb (chaseParents s.cameFrom (s.cameFrom.length + 1) goal).reverse cp
          rw [hchase]
          exact hcp_lw
        · show (chaseParents s.cameFrom (s.cameFrom.length + 1) goal).reverse.head? = some start
          rw [hchase, List.head?_reverse]
          exact chain_last hl
        · show (chaseParents s.cameFrom (s.cameFrom.length + 1) goal).reverse.getLast? = some goal
          rw [hchase, List.getLast?_reverse]
          exact chain_head hl
        · intro c' hw'
          exact le_trans hcp_le (hopt c' hw')
      · intro hP
        cases hP
    · -- a non-goal node is popped: relax its neighbours and recurse
      obtain ⟨qc, hqc, hrinv⟩ :=
        pop_relaxinv getNb h start goal V s hinv (getLowestFIdx s.fScore s.openSet)
          hidx hcg
      obtain ⟨hinv3, hrel3, _, _, hM3⟩ :=
        relaxFold_spec getNb h start goal V
          (s.openSet.getD (getLowestFIdx s.fScore s.openSet) ⟨0, 0⟩) qc
          hs hclosed hcost
          (getNb (s.openSet.getD (getLowestFIdx s.fScore s.openSet) ⟨0, 0⟩))
          (fun x hx => hx) _ hrinv
      have hainv3 := relax_done_inv getNb h start goal V _ qc _ hinv3 hrel3
      have hlen2 : ({ s with
          openSet := s.openSet.eraseIdx (getLowestFIdx s.fScore s.openSet) }
            : AState).openSet.length < s.openSet.length := by
        obtain ⟨hl, _, _⟩ :=
          eraseIdx_facts s.openSet (getLowestFIdx s.fScore s.openSet) hidx hinv.openNodup
        dsimp only
        omega
      have hdec : measureRel V (graphDen getNb V)
          ((getNb (s.openSet.getD (getLowestFIdx s.fScore s.openSet) ⟨0, 0⟩)).foldl
            (relaxOne h goal (s.openSet.getD (getLowestFIdx s.fScore s.openSet) ⟨0, 0⟩))
            { s with openSet := s.openSet.eraseIdx (getLowestFIdx s.fScore s.openSet) }) s :=
        measureRel_of_step hM3 rfl rfl hlen2
      obtain ⟨N', r, hrun, hpost1, hpost2⟩ := IH _ hdec hainv3
      refine ⟨N' + 1, r, ?_, hpost1, hpost2⟩
      intro k
      rw [show N' + 1 + k = (N' + k) + 1 by omega,
        aStarLoop_cons getNb h goal (N' + k) s a t hos, if_neg hcg]
      exact hrun k

/-- The state `aStar` builds before entering its loop satisfies the loop
invariant. -/
theorem aStar_init_inv (getNb : Pos → List NeighborEntry) (h : Pos → Pos → ℚ)
    (start goal : Pos) (V : Finset Pos) (hs : start ∈ V) :
    AStarInv getNb h start goal V
      ⟨[start], [], [(start, some 0)], [(start, some (h start goal))]⟩ := by
  have hgs : ∀ n v', mapGet [(start, some (0 : ℚ))] n = some v' →
      n = start ∧ v' = some 0 := by
    intro n v' hv
    by_cases hne : n = start
    · subst hne
      rw [show mapGet [(n, some (0 : ℚ))] n = some (some 0)
          from mapGet_set_self [] n (some 0)] at hv
      exact ⟨rfl, by simpa using hv.symm⟩
    · rw [show mapGet [(start, some (0 : ℚ))] n = mapGet ([] : List (Pos × Option ℚ)) n
          from mapGet_set_ne [] start n (some 0) hne] at hv
      simp [mapGet] at hv
  refine
    { gstart := mapGet_set_self [] start (some 0), cfstart := rfl,
      greal := ?_, openKeyed := ?_, fconsist := ?_, parentEdge := ?_,
      chains := ?_, inV := ?_, goalOpen := ?_, settledRelaxed := ?_,
      openNodup := List.nodup_singleton start }
  · intro n v hv
    obtain ⟨h1, h2⟩ := hgs n v hv
    subst h1
    subst h2
    exact ⟨0, rfl, Walk.nil n⟩
  · intro p hp
    have hp' : p ∈ [start] := hp
    rw [List.mem_singleton] at hp'
    subst hp'
    exact ⟨some 0, mapGet_set_self [] p (some 0)⟩
  · intro n q hq
    obtain ⟨h1, h2⟩ := hgs n (some q) hq
    subst h1
    have h3 : q = 0 := by simpa using h2
    subst h3
    show mapGet [(n, some (h n goal))] n = some (some (0 + h n goal))
    rw [zero_add]
    exact mapGet_set_self [] n (some (h n goal))
  · intro n p hp
    have hp' : mapGet ([] : List (Pos × Pos)) n = some p := hp
    simp [mapGet] at hp'
  · intro n v hv
    obtain ⟨h1, _⟩ := hgs n v hv
    subst h1
    exact ⟨[n], Chain.base rfl⟩
  · intro n v hv
    obtain ⟨h1, _⟩ := hgs n v hv
    subst h1
    exact hs
  · intro v hv
    obtain ⟨h1, _⟩ := hgs goal v hv
    show goal ∈ [start]
    rw [h1]
    exact List.mem_singleton_self start
  · intro n q hq hnop nb' hnb'
    obtain ⟨h1, _⟩ := hgs n (some q) hq
    subst h1
    exact absurd (List.mem_singleton_self n) hnop

/-- Every walk of the two-node instance graph has non-negative cost. -/
theorem nbW_walk_nonneg : ∀ {u v : Pos} {d : ℚ}, Walk nbW u v d → 0 ≤ d := by
  intro u v d hw
  induction hw with
  | nil => exact le_refl 0
  | @snoc v' w' c' e' hw' he ih =>
    have h01 : (0 : ℚ) ≤ e' := by
      unfold Edge nbW at he
      split_ifs at he with hv
      · rw [List.mem_singleton] at he
        have hc : ({ pos := w', cost := e' } : NeighborEntry).cost
            = ({ pos := ⟨1, 0⟩, cost := 1 } : NeighborEntry).cost := by rw [he]
        simp only at hc
        rw [hc]
        norm_num
      · simp at he
    linarith

/-- C4: on every finite graph presented by a neighbour function (closed over
a vertex set containing the start, with non-negative edge costs) and for
every non-negative admissible heuristic, `aStar` terminates — some fuel, and
every larger fuel, yields a definitive answer — and returns an ordered
position list from start to goal inclusive whose total edge cost is minimal
over all start-to-goal paths, returning `null` exactly when no start-to-goal
path exists. -/
theorem aStar_correct (getNb : Pos → List NeighborEntry) (h : Pos → Pos → ℚ)
    (start goal : Pos) (V : Finset Pos)
    (hs : start ∈ V)
    (hclosed : ∀ p ∈ V, ∀ nb ∈ getNb p, nb.pos ∈ V)
    (hcost : ∀ p ∈ V, ∀ nb ∈ getNb p, 0 ≤ nb.cost)
    (hadm : ∀ u d, Walk getNb u goal d → h u goal ≤ d)
    (hnn : ∀ u, 0 ≤ h u goal) :
    ∃ N r, (∀ k, aStarF (N + k) start goal getNb h = some r) ∧
      (∀ P, r = some P → ∃ c, IsPathList getNb start goal P c ∧
        ∀ P' c', IsPathList getNb start goal P' c' → c ≤ c') ∧
      (r = none ↔ ¬ ∃ c, Walk getNb start goal c) := by
  obtain ⟨N, r, hrun, hpost1, hpost2⟩ :=
    loop_correct getNb h start goal V hs hclosed hcost hadm hnn
      ⟨[start], [], [(start, some 0)], [(start, some (h start goal))]⟩
      (aStar_init_inv getNb h start goal V hs)
  refine ⟨N, r, hrun, ?_, ?_⟩
  · intro P hP
    obtain ⟨c, hpl, hmin⟩ := hpost1 P hP
    refine ⟨c, hpl, ?_⟩
    intro P' c' hpl'
    obtain ⟨hlw', hh', hl'⟩ := hpl'
    exact hmin c' (listWalk_to_walk getNb hlw' hh' hl')
  · constructor
    · intro hr
      rintro ⟨c, hw⟩
      exact hpost2 hr c hw
    · intro hnw
      cases hre : r with
      | none => rfl
      | some P =>
        obtain ⟨c, hpl, _⟩ := hpost1 P hre
        obtain ⟨hlw, hh, hl⟩ := hpl
        exact absurd ⟨c, listWalk_to_walk getNb hlw hh hl⟩ hnw

/-- C4 (witness): the `aStar` correctness statement instantiated on the
concrete two-node graph `nbW` with the zero heuristic, every hypothesis
discharged. -/
theorem aStar_correct_witness :
    ∃ N r, (∀ k, aStarF (N + k) ⟨0, 0⟩ ⟨1, 0⟩ nbW (fun _ _ => 0) = some r) ∧
      (∀ P, r = some P → ∃ c, IsPathList nbW ⟨0, 0⟩ ⟨1, 0⟩ P c ∧
        ∀ P' c', IsPathList nbW ⟨0, 0⟩ ⟨1, 0⟩ P' c' → c ≤ c') ∧
      (r = none ↔ ¬ ∃ c, Walk nbW ⟨0, 0⟩ ⟨1, 0⟩ c) :=
  aStar_correct nbW (fun _ _ => 0) ⟨0, 0⟩ ⟨1, 0⟩ vertsW
    (by decide)
    (by
      intro p hp nb hnb
      unfold nbW at hnb
      split_ifs at hnb with hp0
      · rw [List.mem_singleton] at hnb
        subst hnb
        decide
      · simp at hnb)
    (by
      intro p hp nb hnb
      unfold nbW at hnb
      split_ifs at hnb with hp0
      · rw [List.mem_singleton] at hnb
        subst hnb
        show (0 : ℚ) ≤ 1
        norm_num
      · simp at hnb)
    (fun u d hw => nbW_walk_nonneg hw)
    (fun u => le_refl 0)

/-- C6 (witness): the conservation statement evaluated on `gardenC1` with a
concrete snapshot, including the inner non-soil implication at the
out-of-grid path tile `(5,5)`. -/
theorem diffusion_conserves_total_witness :
    soilAt gardenC1 5 5 = false ∧
    diffuseMoisture gardenC1 (3/20) (fun _ _ => 1) 5 5 = (fun _ _ => (1 : ℚ)) 5 5 :=
  ⟨by decide,
    (diffusion_conserves_total gardenC1 (3/20) (fun _ _ => 1)).2.2 5 5 (by decide)⟩

end Irrig
